import Mathlib

/-!
# Verification of the Gomoku game server core

A shallow embedding, in Lean 4, of the core data structures and operations of
a multi-room Gomoku (five-in-a-row) game server:

* `GomokuBoard` with `place_stone` / `check_winner` (from `server/game_logic.py`),
* `GameRoom` with seating, readiness, turn timer, disconnect/reconnect and
  rematch bookkeeping (from `server/room_manager.py`),
* the server-side message handlers that drive a room
  (from `examples/gomoku_server.py`),
* the line-delimited JSON wire protocol (from `common/protocol.py`).

Mutable Python objects are modelled by pure state-passing functions; Python
dicts by association lists; sockets by opaque numeric identifiers; wall-clock
time by an explicit integer parameter.  Each theorem below checks one sentence
of the natural-language specification against these embedded definitions.
-/

namespace Gomoku

/-! ## Board: `server/game_logic.py`, class `GomokuBoard`

The Python board is a `size × size` list-of-lists of `None | "black" | "white"`.
We model the grid as a total function `Nat → Nat → Option String` together with
the `size` field (the constructor default is 15). -/

structure GomokuBoard where
  size : Nat
  cells : Nat → Nat → Option String

/-- `GomokuBoard()` — fresh board, default size 15, all cells empty. -/
def GomokuBoard.new : GomokuBoard :=
  { size := 15, cells := fun _ _ => none }

/-- `is_valid_position(x, y)`: `0 <= x < self.size and 0 <= y < self.size`. -/
def GomokuBoard.is_valid_position (b : GomokuBoard) (x y : Int) : Bool :=
  (0 ≤ x && x < (b.size : Int)) && (0 ≤ y && y < (b.size : Int))

/-- Reading a cell through the bounds guard; yields `none` off the board.
This is the compound `is_valid_position(nx, ny) and board[nx][ny]` access
pattern used by the walker in `check_winner` (and by `get_stone_at`). -/
def GomokuBoard.getStone (b : GomokuBoard) (x y : Int) : Option String :=
  if b.is_valid_position x y then b.cells x.toNat y.toNat else none

/-- `is_empty(x, y)`: `False` off the board, else `board[x][y] is None`. -/
def GomokuBoard.is_empty (b : GomokuBoard) (x y : Int) : Bool :=
  if !b.is_valid_position x y then false
  else (b.cells x.toNat y.toNat).isNone

/-- Overwriting a single cell of the grid (`self.board[x][y] = color`). -/
def GomokuBoard.updateCell (b : GomokuBoard) (x y : Nat) (v : Option String) :
    GomokuBoard :=
  { b with cells := fun i j => if i = x ∧ j = y then v else b.cells i j }

/-- `reset()` — replaces the grid by an all-empty one of the same size. -/
def GomokuBoard.reset (b : GomokuBoard) : GomokuBoard :=
  { b with cells := fun _ _ => none }

/-- The error kinds of `place_stone` (`raise ValueError(...)` in Python,
named `InvalidPosition` / `Occupied` / `BadColor` by the specification). -/
inductive PlaceError where
  | invalidPosition
  | occupied
  | badColor
deriving DecidableEq

/-- `place_stone(x, y, color)`.  Python mutates the grid and signals failure
by raising before any mutation; we return the (possibly updated) board
together with an optional error. -/
def GomokuBoard.place_stone (b : GomokuBoard) (x y : Int) (color : String) :
    GomokuBoard × Option PlaceError :=
  if !b.is_valid_position x y then (b, some .invalidPosition)
  else if !b.is_empty x y then (b, some .occupied)
  else if !((["black", "white"] : List String).contains color) then
    (b, some .badColor)
  else (b.updateCell x.toNat y.toNat (some color), none)

/-- The inner `while` of `check_winner`: starting at `(nx, ny)`, walk in
direction `(dx, dy)` counting contiguous in-bounds cells holding `color`.
The Python loop is unbounded; along a fixed nonzero direction it visits
pairwise distinct cells of the grid, so `b.size` steps of fuel are enough
(the walk starts strictly off the seed cell of its line). -/
def GomokuBoard.countFrom (b : GomokuBoard) (color : String) (dx dy : Int) :
    Int → Int → Nat → Nat
  | _, _, 0 => 0
  | nx, ny, fuel + 1 =>
    if b.getStone nx ny = some color then
      1 + b.countFrom color dx dy (nx + dx) (ny + dy) fuel
    else 0

/-- The four direction pairs of `check_winner`:
horizontal, vertical, and the two diagonals, each walked both ways. -/
def directions : List ((Int × Int) × (Int × Int)) :=
  [((0, 1), (0, -1)), ((1, 0), (-1, 0)), ((1, 1), (-1, -1)), ((1, -1), (-1, 1))]

/-- The count accumulated for one direction pair: the seed stone plus the
two outward walks. -/
def GomokuBoard.runLength (b : GomokuBoard) (color : String) (x y : Nat)
    (d : (Int × Int) × (Int × Int)) : Nat :=
  1 + b.countFrom color d.1.1 d.1.2 ((x : Int) + d.1.1) ((y : Int) + d.1.2) b.size
    + b.countFrom color d.2.1 d.2.2 ((x : Int) + d.2.1) ((y : Int) + d.2.2) b.size

/-- `check_winner(x, y)` — reads the seed cell directly (`self.board[x][y]`),
returns `None` if it is empty, else checks the four direction pairs for a
total contiguous count of at least 5. -/
def GomokuBoard.check_winner (b : GomokuBoard) (x y : Nat) : Option String :=
  match b.cells x y with
  | none => none
  | some color =>
    if directions.any (fun d => 5 ≤ b.runLength color x y d) then some color
    else none

/-! ### Specification-side predicate for C1

A "contiguous run of at least five same-color stones through `(x, y)` along one
of the four axes": there is an axis direction and a placement of `(x, y)` at
index `a` of a window of five consecutive cells, all in bounds and all holding
the color.  (A run of six or more contains such a window, so "at least 5" is
captured.) -/

/-- The four axes (one representative direction each). -/
def axes : List (Int × Int) := [(0, 1), (1, 0), (1, 1), (1, -1)]

/-- Five consecutive cells along axis `d`, the `a`-th of which is `(x, y)`,
all hold `color` (in particular all are in bounds). -/
def winWindow (b : GomokuBoard) (color : String) (x y : Int) (d : Int × Int)
    (a : Fin 5) : Prop :=
  ∀ i : Fin 5,
    b.getStone (x + ((i.val : Int) - (a.val : Int)) * d.1)
               (y + ((i.val : Int) - (a.val : Int)) * d.2) = some color

/-- There is a contiguous run of at least five `color` stones through `(x, y)`
along one of the four axes. -/
def hasWinRun (b : GomokuBoard) (color : String) (x y : Int) : Prop :=
  ∃ d ∈ axes, ∃ a : Fin 5, winWindow b color x y d a

instance (b : GomokuBoard) (color : String) (x y : Int) :
    Decidable (hasWinRun b color x y) := by
  unfold hasWinRun winWindow
  infer_instance

/-! ### Lemmas about the walker -/

/-- Every step the walker counted holds the color: if `i` is below the count
of the walk starting at `(nx, ny)`, then the `i`-th visited cell holds
`color` (and is in bounds). -/
theorem countFrom_sound (b : GomokuBoard) (color : String) (dx dy : Int) :
    ∀ (fuel : Nat) (nx ny : Int) (i : Nat),
      i < b.countFrom color dx dy nx ny fuel →
      b.getStone (nx + (i : Int) * dx) (ny + (i : Int) * dy) = some color := by
  intro fuel
  induction fuel with
  | zero => intro nx ny i h; simp [GomokuBoard.countFrom] at h
  | succ f ih =>
    intro nx ny i h
    rw [GomokuBoard.countFrom] at h
    by_cases hg : b.getStone nx ny = some color
    · rw [if_pos hg] at h
      match i with
      | 0 => simpa using hg
      | j + 1 =>
        have hj : j < b.countFrom color dx dy (nx + dx) (ny + dy) f := by omega
        have := ih (nx + dx) (ny + dy) j hj
        have ex : nx + dx + (j : Int) * dx = nx + ((j : Nat) + 1 : Int) * dx := by
          ring
        have ey : ny + dy + (j : Int) * dy = ny + ((j : Nat) + 1 : Int) * dy := by
          ring
        rw [ex, ey] at this
        simpa using this
    · rw [if_neg hg] at h; omega

/-- If the first `n` cells of the walk all hold the color and there is enough
fuel, the walker counts at least `n`. -/
theorem countFrom_complete (b : GomokuBoard) (color : String) (dx dy : Int) :
    ∀ (n fuel : Nat) (nx ny : Int), n ≤ fuel →
      (∀ i : Nat, i < n →
        b.getStone (nx + (i : Int) * dx) (ny + (i : Int) * dy) = some color) →
      n ≤ b.countFrom color dx dy nx ny fuel := by
  intro n
  induction n with
  | zero => intro fuel nx ny _ _; omega
  | succ m ih =>
    intro fuel nx ny hfuel hgood
    match fuel with
    | 0 => omega
    | f + 1 =>
      have h0 : b.getStone nx ny = some color := by simpa using hgood 0 (by omega)
      rw [GomokuBoard.countFrom, if_pos h0]
      have : m ≤ b.countFrom color dx dy (nx + dx) (ny + dy) f := by
        apply ih f (nx + dx) (ny + dy) (by omega)
        intro i hi
        have := hgood (i + 1) (by omega)
        push_cast at this
        have ex : nx + ((i : Int) + 1) * dx = nx + dx + (i : Int) * dx := by
          ring
        have ey : ny + ((i : Int) + 1) * dy = ny + dy + (i : Int) * dy := by
          ring
        rw [ex, ey] at this
        exact this
      omega

/-- Reading the seed cell through the guard, when the seed is in bounds. -/
theorem getStone_seed (b : GomokuBoard) (x y : Nat)
    (hx : x < b.size) (hy : y < b.size) :
    b.getStone (x : Int) (y : Int) = b.cells x y := by
  simp [GomokuBoard.getStone, GomokuBoard.is_valid_position]
  omega

/-- One direction pair of `check_winner` accumulates a count of at least 5
iff there is a window of five consecutive `color` cells through `(x, y)`
along that axis.  The backward direction is passed explicitly (as it is
spelled in the `directions` table) together with proofs that it is the
negation of the forward one. -/
theorem axis_count_iff (b : GomokuBoard) (color : String) (x y : Nat)
    (dx dy ex ey : Int) (hex : ex = -dx) (hey : ey = -dy)
    (hx : x < b.size) (hy : y < b.size) (hsz : 5 ≤ b.size)
    (hseed : b.cells x y = some color) :
    5 ≤ 1 + b.countFrom color dx dy ((x : Int) + dx) ((y : Int) + dy) b.size
          + b.countFrom color ex ey ((x : Int) + ex) ((y : Int) + ey) b.size ↔
      ∃ a : Fin 5, winWindow b color (x : Int) (y : Int) (dx, dy) a := by
  subst hex hey
  set c1 := b.countFrom color dx dy ((x : Int) + dx) ((y : Int) + dy) b.size with hc1
  set c2 := b.countFrom color (-dx) (-dy) ((x : Int) + -dx) ((y : Int) + -dy) b.size
    with hc2
  have hseedG : b.getStone (x : Int) (y : Int) = some color := by
    rw [getStone_seed b x y hx hy]; exact hseed
  constructor
  · intro h
    refine ⟨⟨min c2 4, by omega⟩, ?_⟩
    intro i
    simp only [winWindow]
    rcases lt_trichotomy (i.val) (min c2 4) with hlt | heq | hgt
    · -- backward part of the window
      set j : Nat := min c2 4 - i.val - 1 with hj
      have hjc : j < c2 := by omega
      have := countFrom_sound b color (-dx) (-dy) b.size
        ((x : Int) + -dx) ((y : Int) + -dy) j hjc
      have hrel : ((i.val : Int) - ((⟨min c2 4, by omega⟩ : Fin 5).val : Int)) =
          -((j : Int) + 1) := by
        simp only [hj]
        have : i.val + j + 1 = min c2 4 := by omega
        push_cast
        omega
      rw [hrel]
      have ex' : (x : Int) + -((j : Int) + 1) * dx = (x : Int) + -dx + (j : Int) * -dx := by
        ring
      have ey' : (y : Int) + -((j : Int) + 1) * dy = (y : Int) + -dy + (j : Int) * -dy := by
        ring
      rw [ex', ey']
      exact this
    · -- the seed cell itself
      have hrel : ((i.val : Int) - ((⟨min c2 4, by omega⟩ : Fin 5).val : Int)) = 0 := by
        simp only []
        omega
      rw [hrel]
      simpa using hseedG
    · -- forward part of the window
      set j : Nat := i.val - min c2 4 - 1 with hj
      have hmin : min c2 4 = c2 := by omega
      have hjc : j < c1 := by omega
      have := countFrom_sound b color dx dy b.size
        ((x : Int) + dx) ((y : Int) + dy) j hjc
      have hrel : ((i.val : Int) - ((⟨min c2 4, by omega⟩ : Fin 5).val : Int)) =
          (j : Int) + 1 := by
        simp only [hj]
        push_cast
        omega
      rw [hrel]
      have ex' : (x : Int) + ((j : Int) + 1) * dx = (x : Int) + dx + (j : Int) * dx := by
        ring
      have ey' : (y : Int) + ((j : Int) + 1) * dy = (y : Int) + dy + (j : Int) * dy := by
        ring
      rw [ex', ey']
      exact this
  · rintro ⟨a, hw⟩
    simp only [winWindow] at hw
    have hback : a.val ≤ c2 := by
      rw [hc2]
      apply countFrom_complete b color (-dx) (-dy) a.val b.size _ _ (by omega)
      intro j hj
      have := hw ⟨a.val - 1 - j, by omega⟩
      have hrel : (((a.val - 1 - j : Nat) : Int) - (a.val : Int)) = -((j : Int) + 1) := by
        omega
      rw [hrel] at this
      have ex' : (x : Int) + -((j : Int) + 1) * dx = (x : Int) + -dx + (j : Int) * -dx := by
        ring
      have ey' : (y : Int) + -((j : Int) + 1) * dy = (y : Int) + -dy + (j : Int) * -dy := by
        ring
      rw [ex', ey'] at this
      exact this
    have hfwd : 4 - a.val ≤ c1 := by
      rw [hc1]
      apply countFrom_complete b color dx dy (4 - a.val) b.size _ _ (by omega)
      intro j hj
      have := hw ⟨a.val + j + 1, by omega⟩
      have hrel : (((a.val + j + 1 : Nat) : Int) - (a.val : Int)) = (j : Int) + 1 := by
        push_cast
        omega
      rw [hrel] at this
      have ex' : (x : Int) + ((j : Int) + 1) * dx = (x : Int) + dx + (j : Int) * dx := by
        ring
      have ey' : (y : Int) + ((j : Int) + 1) * dy = (y : Int) + dy + (j : Int) * dy := by
        ring
      rw [ex', ey'] at this
      exact this
    omega

/-- Unfolding `check_winner` on an empty seed cell. -/
theorem check_winner_eq_none (b : GomokuBoard) (x y : Nat)
    (hc : b.cells x y = none) : b.check_winner x y = none := by
  rw [GomokuBoard.check_winner, hc]

/-- Unfolding `check_winner` on an occupied seed cell. -/
theorem check_winner_eq_some (b : GomokuBoard) (x y : Nat) (c0 : String)
    (hc : b.cells x y = some c0) :
    b.check_winner x y =
      if directions.any (fun d => 5 ≤ b.runLength c0 x y d) then some c0
      else none := by
  rw [GomokuBoard.check_winner, hc]

/-- C1.  For every board of the configured size 15 and every in-range
coordinate `(x, y)`, `check_winner(x, y)` returns the color stored at `(x, y)`
iff a contiguous run of at least five same-color stones passes through
`(x, y)` along one of the four axes; otherwise (in particular on an empty
cell) it returns none.  Runs longer than five satisfy `hasWinRun` as well,
so an overline also wins. -/
theorem claim1_check_winner_iff (b : GomokuBoard) (hsz : b.size = 15)
    (x y : Nat) (hx : x < 15) (hy : y < 15) (color : String) :
    b.check_winner x y = some color ↔
      b.cells x y = some color ∧ hasWinRun b color (x : Int) (y : Int) := by
  have hx' : x < b.size := by omega
  have hy' : y < b.size := by omega
  have hsz5 : 5 ≤ b.size := by omega
  constructor
  · intro h
    cases hc : b.cells x y with
    | none => rw [check_winner_eq_none b x y hc] at h; simp at h
    | some c0 =>
      rw [check_winner_eq_some b x y c0 hc] at h
      by_cases hA : directions.any (fun d => 5 ≤ b.runLength c0 x y d) = true
      · rw [if_pos hA] at h
        have hcc : c0 = color := by injection h
        subst hcc
        refine ⟨rfl, ?_⟩
        simp only [directions, List.any_cons, List.any_nil, Bool.or_eq_true,
          Bool.or_false, decide_eq_true_eq] at hA
        rcases hA with h1 | h2 | h3 | h4
        · exact ⟨(0, 1), by simp [axes],
            (axis_count_iff b c0 x y 0 1 0 (-1) (by norm_num) (by norm_num)
              hx' hy' hsz5 hc).mp h1⟩
        · exact ⟨(1, 0), by simp [axes],
            (axis_count_iff b c0 x y 1 0 (-1) 0 (by norm_num) (by norm_num)
              hx' hy' hsz5 hc).mp h2⟩
        · exact ⟨(1, 1), by simp [axes],
            (axis_count_iff b c0 x y 1 1 (-1) (-1) (by norm_num) (by norm_num)
              hx' hy' hsz5 hc).mp h3⟩
        · exact ⟨(1, -1), by simp [axes],
            (axis_count_iff b c0 x y 1 (-1) (-1) 1 (by norm_num) (by norm_num)
              hx' hy' hsz5 hc).mp h4⟩
      · rw [if_neg hA] at h
        exact absurd h (by simp)
  · rintro ⟨hcol, hrun⟩
    rw [check_winner_eq_some b x y color hcol]
    obtain ⟨d, hd, a, hw⟩ := hrun
    have hd4 : d = (0, 1) ∨ d = (1, 0) ∨ d = (1, 1) ∨ d = (1, -1) := by
      simpa [axes] using hd
    have hA : directions.any (fun d => 5 ≤ b.runLength color x y d) = true := by
      simp only [directions, List.any_cons, List.any_nil, Bool.or_eq_true,
        Bool.or_false, decide_eq_true_eq]
      rcases hd4 with rfl | rfl | rfl | rfl
      · exact Or.inl ((axis_count_iff b color x y 0 1 0 (-1) (by norm_num)
          (by norm_num) hx' hy' hsz5 hcol).mpr ⟨a, hw⟩)
      · exact Or.inr (Or.inl ((axis_count_iff b color x y 1 0 (-1) 0 (by norm_num)
          (by norm_num) hx' hy' hsz5 hcol).mpr ⟨a, hw⟩))
      · exact Or.inr (Or.inr (Or.inl ((axis_count_iff b color x y 1 1 (-1) (-1)
          (by norm_num) (by norm_num) hx' hy' hsz5 hcol).mpr ⟨a, hw⟩)))
      · exact Or.inr (Or.inr (Or.inr ((axis_count_iff b color x y 1 (-1) (-1) 1
          (by norm_num) (by norm_num) hx' hy' hsz5 hcol).mpr ⟨a, hw⟩)))
    rw [if_pos hA]

/-- A concrete board: five black stones in row 7, columns 3..7. -/
def rowFiveBoard : GomokuBoard :=
  { size := 15,
    cells := fun x y => if x = 7 ∧ 3 ≤ y ∧ y ≤ 7 then some "black" else none }

/-- Witness for C1 at a concrete input: on `rowFiveBoard` the horizontal run
of five through `(7, 5)` is detected. -/
theorem claim1_check_winner_iff_witness :
    rowFiveBoard.check_winner 7 5 = some "black" :=
  (claim1_check_winner_iff rowFiveBoard rfl 7 5 (by decide) (by decide)
    "black").mpr (by decide)

/-- C2.  On a board of the configured size 15, `place_stone(x, y, color)`
fails with `InvalidPosition` when `(x, y)` is outside `[0,15)²`, with
`Occupied` when `(x, y)` is in range but the cell is non-empty, with
`BadColor` when the cell is free but the color is neither `"black"` nor
`"white"`; otherwise it succeeds and sets exactly that cell to the color,
leaving every other cell (and the size) unchanged.  Whenever it fails the
grid is unchanged. -/
theorem claim2_place_stone_spec (b : GomokuBoard) (hsz : b.size = 15)
    (x y : Int) (color : String) :
    (¬(0 ≤ x ∧ x < 15 ∧ 0 ≤ y ∧ y < 15) →
      b.place_stone x y color = (b, some .invalidPosition)) ∧
    ((0 ≤ x ∧ x < 15 ∧ 0 ≤ y ∧ y < 15) → b.cells x.toNat y.toNat ≠ none →
      b.place_stone x y color = (b, some .occupied)) ∧
    ((0 ≤ x ∧ x < 15 ∧ 0 ≤ y ∧ y < 15) → b.cells x.toNat y.toNat = none →
      color ≠ "black" → color ≠ "white" →
      b.place_stone x y color = (b, some .badColor)) ∧
    ((0 ≤ x ∧ x < 15 ∧ 0 ≤ y ∧ y < 15) → b.cells x.toNat y.toNat = none →
      (color = "black" ∨ color = "white") →
      (b.place_stone x y color).2 = none ∧
      (b.place_stone x y color).1.cells x.toNat y.toNat = some color ∧
      (∀ i j : Nat, ¬(i = x.toNat ∧ j = y.toNat) →
        (b.place_stone x y color).1.cells i j = b.cells i j) ∧
      (b.place_stone x y color).1.size = b.size) ∧
    ((b.place_stone x y color).2 ≠ none → (b.place_stone x y color).1 = b) := by
  have hvalid : b.is_valid_position x y = true ↔
      (0 ≤ x ∧ x < 15 ∧ 0 ≤ y ∧ y < 15) := by
    simp [GomokuBoard.is_valid_position, hsz]
    omega
  refine ⟨?_, ?_, ?_, ?_, ?_⟩
  · intro hout
    have hv : ¬ b.is_valid_position x y = true := fun hv => hout (hvalid.mp hv)
    simp only [Bool.not_eq_true] at hv
    simp [GomokuBoard.place_stone, hv]
  · intro hin hocc
    have hv : b.is_valid_position x y = true := hvalid.mpr hin
    obtain ⟨v, hvv⟩ := Option.ne_none_iff_exists'.mp hocc
    have he : b.is_empty x y = false := by
      simp [GomokuBoard.is_empty, hv, hvv]
    simp [GomokuBoard.place_stone, hv, he]
  · intro hin hfree hnb hnw
    have hv : b.is_valid_position x y = true := hvalid.mpr hin
    have he : b.is_empty x y = true := by
      simp [GomokuBoard.is_empty, hv, hfree]
    simp only [GomokuBoard.place_stone, hv, he]
    simp [hnb, hnw]
  · intro hin hfree hcolor
    have hv : b.is_valid_position x y = true := hvalid.mpr hin
    have he : b.is_empty x y = true := by
      simp [GomokuBoard.is_empty, hv, hfree]
    have hps : b.place_stone x y color =
        (b.updateCell x.toNat y.toNat (some color), none) := by
      rcases hcolor with rfl | rfl <;> simp [GomokuBoard.place_stone, hv, he]
    refine ⟨by rw [hps], by rw [hps]; simp [GomokuBoard.updateCell], ?_,
      by rw [hps]; rfl⟩
    intro i j hij
    rw [hps]
    simp [GomokuBoard.updateCell, hij]
  · intro herr
    by_cases hv : b.is_valid_position x y = true
    · by_cases he : b.is_empty x y = true
      · by_cases hb : color = "black"
        · exact absurd (by subst hb; simp [GomokuBoard.place_stone, hv, he])
            herr
        · by_cases hw : color = "white"
          · exact absurd (by subst hw; simp [GomokuBoard.place_stone, hv, he])
              herr
          · have : b.place_stone x y color = (b, some .badColor) := by
              simp only [GomokuBoard.place_stone, hv, he]
              simp [hb, hw]
            rw [this]
      · simp only [Bool.not_eq_true] at he
        have : b.place_stone x y color = (b, some .occupied) := by
          simp [GomokuBoard.place_stone, hv, he]
        rw [this]
    · simp only [Bool.not_eq_true] at hv
      have : b.place_stone x y color = (b, some .invalidPosition) := by
        simp [GomokuBoard.place_stone, hv]
      rw [this]

/-- Witness for C2 at concrete inputs: all four outcomes of `place_stone`
on small boards, produced by the theorem itself. -/
theorem claim2_place_stone_spec_witness :
    (GomokuBoard.new.place_stone 20 3 "black" =
      (GomokuBoard.new, some .invalidPosition)) ∧
    (rowFiveBoard.place_stone 7 5 "white" = (rowFiveBoard, some .occupied)) ∧
    (GomokuBoard.new.place_stone 2 3 "green" =
      (GomokuBoard.new, some .badColor)) ∧
    ((GomokuBoard.new.place_stone 2 3 "black").2 = none ∧
      (GomokuBoard.new.place_stone 2 3 "black").1.cells 2 3 = some "black" ∧
      (GomokuBoard.new.place_stone 2 3 "black").1.cells 0 0 = none) :=
  ⟨(claim2_place_stone_spec GomokuBoard.new rfl 20 3 "black").1 (by decide),
   (claim2_place_stone_spec rowFiveBoard rfl 7 5 "white").2.1 (by decide)
     (by decide),
   (claim2_place_stone_spec GomokuBoard.new rfl 2 3 "green").2.2.1 (by decide)
     (by decide) (by decide) (by decide),
   ⟨((claim2_place_stone_spec GomokuBoard.new rfl 2 3 "black").2.2.2.1
       (by decide) (by decide) (Or.inl rfl)).1,
    ((claim2_place_stone_spec GomokuBoard.new rfl 2 3 "black").2.2.2.1
       (by decide) (by decide) (Or.inl rfl)).2.1,
    by
      have := ((claim2_place_stone_spec GomokuBoard.new rfl 2 3 "black").2.2.2.1
        (by decide) (by decide) (Or.inl rfl)).2.2.1 0 0 (by decide)
      simpa [GomokuBoard.new] using this⟩⟩

/-! ## Rooms: `server/room_manager.py`, class `GameRoom`

Python sockets are modelled by numeric identifiers (`Option Nat`, `none`
standing for the `None` sentinel of a disconnected seat), Python dicts by
association lists, and `time.time()` by an explicit integer parameter `now`
threaded through the operations that read the clock.  Broadcast calls are
pure I/O and do not change room state, so they are not modelled. -/

/-- One player seat: `{socket, name, color, ready}`. -/
structure Player where
  sock : Option Nat
  name : String
  color : String
  ready : Bool
deriving DecidableEq

/-- One entry of `disconnected_players`:
`{disconnect_time, color, reconnect_count}` (the `player_data` copy is kept
by the Python dict but never read apart from these fields). -/
structure DiscInfo where
  disconnect_time : Int
  color : String
  reconnect_count : Nat
deriving DecidableEq

/-- `self.max_reconnect_attempts = 2`. -/
def max_reconnect_attempts : Nat := 2

/-- `self.reconnect_timeout = 180` (seconds). -/
def reconnect_timeout : Int := 180

/-- `self.turn_time_limit = 60` (seconds). -/
def turn_time_limit_default : Nat := 60

/-- Python dict assignment `d[k] = v` on an association list. -/
def setAssoc {α : Type} : List (String × α) → String → α → List (String × α)
  | [], k, v => [(k, v)]
  | (k0, v0) :: rest, k, v =>
    if k0 = k then (k, v) :: rest else (k0, v0) :: setAssoc rest k v

/-- Python dict deletion `del d[k]` on an association list (dict keys are
unique, so removing every binding of `k` is the same operation). -/
def eraseAssoc {α : Type} : List (String × α) → String → List (String × α)
  | [], _ => []
  | (k0, v0) :: rest, k =>
    if k0 = k then eraseAssoc rest k else (k0, v0) :: eraseAssoc rest k

/-- `self.reconnect_attempts.get(name, 0)`. -/
def lookupNat (l : List (String × Nat)) (k : String) : Nat :=
  (l.lookup k).getD 0

/-- Room state.  `turn_start_time = none` models a cancelled/unarmed timer
(`self.turn_start_time = None`); `turn_start_time = some t` an armed timer
whose deadline is `t + turn_time_limit`. -/
structure GameRoom where
  players : List Player
  status : String
  board : GomokuBoard
  current_turn : String
  turn_start_time : Option Int
  turn_time_limit : Nat
  is_paused : Bool
  disconnected_players : List (String × DiscInfo)
  reconnect_attempts : List (String × Nat)
  rematch_requests : List (String × Bool)

/-- `GameRoom.__init__`. -/
def GameRoom.new : GameRoom :=
  { players := [], status := "waiting", board := GomokuBoard.new,
    current_turn := "black", turn_start_time := none,
    turn_time_limit := turn_time_limit_default, is_paused := false,
    disconnected_players := [], reconnect_attempts := [],
    rematch_requests := [] }

/-- `add_player(socket, name)` — raises when two seats are taken (modelled by
returning `none`), else appends a seat whose color is black for the first
seat and white otherwise, with `ready = False`, and returns the color. -/
def GameRoom.add_player (r : GameRoom) (sock : Nat) (name : String) :
    GameRoom × Option String :=
  if 2 ≤ r.players.length then (r, none)
  else
    let color := if r.players.length = 0 then "black" else "white"
    ({ r with players := r.players ++
        [{ sock := some sock, name := name, color := color, ready := false }] },
     some color)

/-- The `for player in self.players: if player["socket"] == client_socket`
search, returning the matched seat and the list with it removed. -/
def removeFirst : List Player → Nat → Option (Player × List Player)
  | [], _ => none
  | p :: rest, sock =>
    if p.sock = some sock then some (p, rest)
    else (removeFirst rest sock).map (fun q => (q.1, p :: q.2))

/-- In-place `player["socket"] = None` on the first seat matching the socket. -/
def setSockNoneFirst : List Player → Nat → List Player
  | [], _ => []
  | p :: rest, sock =>
    if p.sock = some sock then { p with sock := none } :: rest
    else p :: setSockNoneFirst rest sock

/-- `stop_timer()` — state effect only: `self.turn_start_time = None`. -/
def GameRoom.stop_timer (r : GameRoom) : GameRoom :=
  { r with turn_start_time := none }

/-- `start_timer(cb)` — skipped entirely while paused; else records the
arming time (`self.turn_start_time = time.time()`). -/
def GameRoom.start_timer (r : GameRoom) (now : Int) : GameRoom :=
  if r.is_paused then r else { r with turn_start_time := some now }

/-- `remove_player(socket, is_disconnect)`.  During a playing game a
disconnect keeps the seat (socket nulled), records the disconnection when the
reconnect count is still below the maximum, pauses the game and stops the
timer.  A clean removal drops the seat; if exactly one seat remains the game
is fully reset (waiting, fresh board, turn black, timer stopped, remaining
seat un-readied, rematch state cleared); if none remain only the status is
reset. -/
def GameRoom.remove_player (r : GameRoom) (sock : Nat) (is_disconnect : Bool)
    (now : Int) : GameRoom × Option String :=
  match removeFirst r.players sock with
  | none => (r, none)
  | some (p, others) =>
    if is_disconnect ∧ r.status = "playing" then
      let attempts := lookupNat r.reconnect_attempts p.name
      let disc :=
        if attempts < max_reconnect_attempts then
          setAssoc r.disconnected_players p.name
            { disconnect_time := now, color := p.color,
              reconnect_count := attempts }
        else r.disconnected_players
      ({ r with
          players := setSockNoneFirst r.players sock,
          disconnected_players := disc,
          is_paused := true,
          turn_start_time := none }, some p.name)
    else
      if others.length = 1 then
        ({ r with
            players := others.map (fun q => { q with ready := false }),
            status := "waiting",
            board := r.board.reset,
            current_turn := "black",
            turn_start_time := none,
            rematch_requests := [] }, some p.name)
      else if others.length = 0 then
        ({ r with players := others, status := "waiting" }, some p.name)
      else ({ r with players := others }, some p.name)

/-- `get_player_by_socket(socket)`. -/
def GameRoom.get_player_by_socket (r : GameRoom) (sock : Nat) : Option Player :=
  r.players.find? (fun p => p.sock = some sock)

/-- `set_player_ready(socket, state)` — sets the flag on the first matching
seat. -/
def setReadyFirst : List Player → Nat → Bool → List Player
  | [], _, _ => []
  | p :: rest, sock, state =>
    if p.sock = some sock then { p with ready := state } :: rest
    else p :: setReadyFirst rest sock state

/-- `set_player_ready`, state effect. -/
def GameRoom.set_player_ready (r : GameRoom) (sock : Nat) (state : Bool) :
    GameRoom :=
  { r with players := setReadyFirst r.players sock state }

/-- `are_all_players_ready()` — false with fewer than two seats, else the
conjunction of the ready flags. -/
def GameRoom.are_all_players_ready (r : GameRoom) : Bool :=
  if r.players.length < 2 then false else r.players.all (·.ready)

/-- `switch_turn()`. -/
def GameRoom.switch_turn (r : GameRoom) : GameRoom :=
  { r with current_turn := if r.current_turn = "black" then "white"
    else "black" }

/-- `can_reconnect(name)`: the name has a disconnection record, its reconnect
attempt count is below the maximum, and the elapsed time since the disconnect
is at most the 180 s grace period. -/
def GameRoom.can_reconnect (r : GameRoom) (name : String) (now : Int) : Bool :=
  match r.disconnected_players.lookup name with
  | none => false
  | some info =>
    if max_reconnect_attempts ≤ lookupNat r.reconnect_attempts name then false
    else decide (now - info.disconnect_time ≤ reconnect_timeout)

/-- `player["socket"] = new_socket` on the first seat with the given name
(the rebind loop of `reconnect_player`, which `break`s after the first hit). -/
def rebindFirstByName : List Player → String → Nat → List Player
  | [], _, _ => []
  | p :: rest, name, sock =>
    if p.name = name then { p with sock := some sock } :: rest
    else p :: rebindFirstByName rest name sock

/-- `reconnect_player(name, new_socket)` — checks the record and
`can_reconnect`, bumps the attempt count, rebinds the seat's socket, drops
the disconnection record, and, when no player remains disconnected, clears
the pause and (in a playing game) restarts the turn timer.  Returns the
updated room and the Python boolean result. -/
def GameRoom.reconnect_player (r : GameRoom) (name : String) (newSock : Nat)
    (now : Int) : GameRoom × Bool :=
  if (r.disconnected_players.lookup name).isNone then (r, false)
  else if ¬ r.can_reconnect name now then (r, false)
  else
    let attempts := lookupNat r.reconnect_attempts name
    let r1 := { r with
      reconnect_attempts := setAssoc r.reconnect_attempts name (attempts + 1),
      players := rebindFirstByName r.players name newSock,
      disconnected_players := eraseAssoc r.disconnected_players name }
    let r2 :=
      if r1.disconnected_players.isEmpty then
        let r2a := { r1 with is_paused := false }
        if r2a.status = "playing" then r2a.start_timer now else r2a
      else r1
    (r2, true)

/-- `check_reconnect_timeout()` — the disconnection records whose age
strictly exceeds the 180 s grace period, as `(name, color)` pairs. -/
def GameRoom.check_reconnect_timeout (r : GameRoom) (now : Int) :
    List (String × String) :=
  r.disconnected_players.filterMap (fun kv =>
    if reconnect_timeout < now - kv.2.disconnect_time then
      some (kv.1, kv.2.color)
    else none)

/-- `forfeit_player(name, color)` — drops the record, stops the timer, marks
the game finished and unpauses; returns the winning color and (if seated)
the winner's name. -/
def GameRoom.forfeit_player (r : GameRoom) (name : String) (color : String) :
    GameRoom × String × Option String :=
  let r1 := { r with
    disconnected_players := eraseAssoc r.disconnected_players name }
  let winner_color := if color = "black" then "white" else "black"
  let winner_name :=
    (r1.players.find? (fun p => p.color = winner_color)).map (·.name)
  ({ r1.stop_timer with status := "finished", is_paused := false },
   winner_color, winner_name)

/-- `request_rematch(name)` — records the agreement, only in a finished
game. -/
def GameRoom.request_rematch (r : GameRoom) (name : String) :
    GameRoom × Bool :=
  if r.status ≠ "finished" then (r, false)
  else ({ r with rematch_requests := setAssoc r.rematch_requests name true },
    true)

/-- `is_rematch_agreed()` — exactly two seats and both have a recorded
agreement. -/
def GameRoom.is_rematch_agreed (r : GameRoom) : Bool :=
  if r.players.length ≠ 2 then false
  else r.players.all (fun p => (r.rematch_requests.lookup p.name).getD false)

/-- The color swap of `start_rematch`: black and white trade places, any
other value is left unchanged. -/
def swapColor (c : String) : String :=
  if c = "black" then "white" else if c = "white" then "black" else c

/-- `start_rematch()` — resets the board, sets the turn to black, marks the
room playing, clears the rematch agreements, swaps every seat's color and
marks every seat ready. -/
def GameRoom.start_rematch (r : GameRoom) : GameRoom :=
  { r with
    board := r.board.reset,
    current_turn := "black",
    status := "playing",
    rematch_requests := [],
    players := r.players.map (fun p =>
      { p with color := swapColor p.color, ready := true }) }

/-! ## Server handlers: `examples/gomoku_server.py`, class `GomokuServer`

Only the state transitions on the room are modelled; responses and
broadcasts are socket I/O. -/

/-- `handle_ready` — for a seated player: toggles the seat's ready flag and,
when `are_all_players_ready()` then holds, sets the status to `"playing"`
and starts the 60 s turn timer.  (The handler checks neither the current
status nor the board.) -/
def handle_ready (r : GameRoom) (sock : Nat) (now : Int) : GameRoom :=
  match r.get_player_by_socket sock with
  | none => r
  | some p =>
    let r1 := r.set_player_ready sock (!p.ready)
    if r1.are_all_players_ready then
      ({ r1 with status := "playing" }).start_timer now
    else r1

/-- `handle_place_stone` — validates seat, status and turn, delegates to the
board's `place_stone` (an error leaves the room unchanged), then checks the
winner at the placed cell: on a win the timer is stopped and the game
finished, otherwise the timer is stopped, the turn switched and the timer
restarted. -/
def handle_place_stone (r : GameRoom) (sock : Nat) (x y : Int) (now : Int) :
    GameRoom :=
  match r.get_player_by_socket sock with
  | none => r
  | some p =>
    if r.status ≠ "playing" then r
    else if p.color ≠ r.current_turn then r
    else
      match r.board.place_stone x y p.color with
      | (_, some _) => r
      | (b', none) =>
        let r1 := { r with board := b' }
        match b'.check_winner x.toNat y.toNat with
        | some _ => { r1.stop_timer with status := "finished" }
        | none => ((r1.stop_timer).switch_turn).start_timer now

/-- The `"timeout"` branch of `handle_timer_event` — a no-op unless the room
is still playing; otherwise switches the turn and restarts the timer (no
stone is placed and the status is untouched). -/
def handle_timer_timeout (r : GameRoom) (now : Int) : GameRoom :=
  if r.status ≠ "playing" then r
  else (r.switch_turn).start_timer now

/-! ## C3: the seating invariant under AddPlayer / clean Leave -/

/-- The operations the C3 claim quantifies over: seating a player and a
clean (non-disconnect) leave. -/
inductive SeatOp where
  | addPlayer (sock : Nat) (name : String)
  | leave (sock : Nat)

/-- One C3 operation on a room (clean leave passes `is_disconnect = False`;
the clock value is irrelevant on that path). -/
def seatStep (r : GameRoom) : SeatOp → GameRoom
  | .addPlayer s n => (r.add_player s n).1
  | .leave s => (r.remove_player s false 0).1

/-- The rooms reachable from a fresh room by AddPlayer / clean Leave. -/
def runSeatOps (ops : List SeatOp) : GameRoom :=
  ops.foldl seatStep GameRoom.new

/-- The interleaving refuting C3: seat A (black) and B (white), A leaves
cleanly, C joins — `add_player` hands C white because one seat is taken. -/
def seatOpsCE : List SeatOp :=
  [.addPlayer 1 "A", .addPlayer 2 "B", .leave 1, .addPlayer 3 "C"]

/-- Counterexample to C3: a room reachable by AddPlayer / clean Leave with
exactly two seats whose colors are white and white — not `{black, white}` —
so "two seats iff colors are exactly one black and one white" fails. -/
theorem claim3_counterexample :
    (runSeatOps seatOpsCE).players.length = 2 ∧
    (runSeatOps seatOpsCE).players.map Player.color = ["white", "white"] ∧
    ¬ List.Perm ((runSeatOps seatOpsCE).players.map Player.color)
        ["black", "white"] := by
  decide

/-- What actually holds in every state reachable by AddPlayer / clean Leave:
at most two seats, every seat black or white, and the *second* seat always
white (the first need not be black, as `claim3_counterexample` shows). -/
def SeatInv (r : GameRoom) : Prop :=
  r.players.length ≤ 2 ∧
  (∀ p ∈ r.players, p.color = "black" ∨ p.color = "white") ∧
  (∀ p q rest, r.players = p :: q :: rest → q.color = "white")

/-- `removeFirst` drops exactly one element, and keeps elements of the
original list. -/
theorem removeFirst_spec :
    ∀ (ps : List Player) (sock : Nat) (p : Player) (others : List Player),
      removeFirst ps sock = some (p, others) →
      ps.length = others.length + 1 ∧ ∀ q ∈ others, q ∈ ps := by
  intro ps
  induction ps with
  | nil => intro sock p others h; simp [removeFirst] at h
  | cons hd tl ih =>
    intro sock p others h
    rw [removeFirst] at h
    by_cases hs : hd.sock = some sock
    · rw [if_pos hs] at h
      simp only [Option.some.injEq, Prod.mk.injEq] at h
      obtain ⟨rfl, rfl⟩ := h
      exact ⟨by simp, fun q hq => List.mem_cons_of_mem _ hq⟩
    · rw [if_neg hs] at h
      cases hrec : removeFirst tl sock with
      | none => rw [hrec] at h; simp at h
      | some pr =>
        obtain ⟨qp, qo⟩ := pr
        rw [hrec] at h
        simp only [Option.map_some', Option.some.injEq, Prod.mk.injEq] at h
        obtain ⟨rfl, rfl⟩ := h
        obtain ⟨hl, hm⟩ := ih sock qp qo hrec
        refine ⟨by simp [hl], ?_⟩
        intro x hx
        rcases List.mem_cons.mp hx with rfl | hx
        · exact List.mem_cons_self _ _
        · exact List.mem_cons_of_mem _ (hm x hx)

/-- `remove_player` with no matching seat is a no-op. -/
theorem remove_player_not_found (r : GameRoom) (s : Nat) (d : Bool) (now : Int)
    (hrf : removeFirst r.players s = none) :
    r.remove_player s d now = (r, none) := by
  rw [GameRoom.remove_player, hrf]

/-- Clean removal leaving one seat: full game reset. -/
theorem remove_player_clean_one (r : GameRoom) (s : Nat) (now : Int)
    (pp : Player) (others : List Player)
    (hrf : removeFirst r.players s = some (pp, others))
    (h1 : others.length = 1) :
    (r.remove_player s false now).1 =
      { r with
        players := others.map (fun q => { q with ready := false }),
        status := "waiting",
        board := r.board.reset,
        current_turn := "black",
        turn_start_time := none,
        rematch_requests := [] } := by
  rw [GameRoom.remove_player, hrf]
  simp [h1]

/-- Clean removal leaving no seat: only the status is reset. -/
theorem remove_player_clean_zero (r : GameRoom) (s : Nat) (now : Int)
    (pp : Player) (others : List Player)
    (hrf : removeFirst r.players s = some (pp, others))
    (_h1 : others.length ≠ 1) (h0 : others.length = 0) :
    (r.remove_player s false now).1 =
      { r with players := others, status := "waiting" } := by
  rw [GameRoom.remove_player, hrf]
  simp [h0]

/-- One AddPlayer / clean Leave step preserves the seating invariant. -/
theorem seatStep_preserves (r : GameRoom) (op : SeatOp) (h : SeatInv r) :
    SeatInv (seatStep r op) := by
  obtain ⟨hlen, hcol, hsnd⟩ := h
  cases op with
  | addPlayer s n =>
    show SeatInv (r.add_player s n).1
    rw [GameRoom.add_player]
    by_cases hfull : 2 ≤ r.players.length
    · rw [if_pos hfull]; exact ⟨hlen, hcol, hsnd⟩
    · rw [if_neg hfull]
      refine ⟨?_, ?_, ?_⟩
      · show (r.players ++ [_]).length ≤ 2
        simp only [List.length_append, List.length_cons, List.length_nil]
        omega
      · intro p hp
        rcases List.mem_append.mp hp with hp | hp
        · exact hcol p hp
        · have hp' := List.mem_singleton.mp hp
          subst hp'
          by_cases h0 : r.players.length = 0
          · left; simp only []; rw [if_pos h0]
          · right; simp only []; rw [if_neg h0]
      · intro p q rest heq
        rcases hps : r.players with _ | ⟨a, _ | ⟨b, tl⟩⟩
        · rw [hps] at heq
          simp at heq
        · rw [hps] at heq
          simp only [List.cons_append, List.nil_append, List.cons.injEq] at heq
          obtain ⟨_, hq, _⟩ := heq
          rw [← hq]
          simp only []
          rw [if_neg (by simp)]
        · exfalso
          rw [hps] at hfull
          simp at hfull
  | leave s =>
    show SeatInv (r.remove_player s false 0).1
    cases hrf : removeFirst r.players s with
    | none =>
      rw [remove_player_not_found r s false 0 hrf]
      exact ⟨hlen, hcol, hsnd⟩
    | some pr =>
      obtain ⟨pp, others⟩ := pr
      obtain ⟨hlen1, hmem1⟩ := removeFirst_spec r.players s pp others hrf
      by_cases h1 : others.length = 1
      · rw [remove_player_clean_one r s 0 pp others hrf h1]
        refine ⟨by simp [h1], ?_, ?_⟩
        · intro p hp
          obtain ⟨q, hq, rfl⟩ := List.mem_map.mp hp
          exact hcol q (hmem1 q hq)
        · intro p q rest heq
          exfalso
          have hlen2 : (p :: q :: rest).length = 1 := by
            rw [← heq]
            simp [h1]
          simp at hlen2
      · have h0 : others.length = 0 := by omega
        rw [remove_player_clean_zero r s 0 pp others hrf h1 h0]
        have : others = [] := List.length_eq_zero.mp h0
        subst this
        exact ⟨by simp, by simp, by intro p q rest heq; simp at heq⟩

/-- C3 amended: in every room reachable from a fresh room by any
interleaving of AddPlayer and clean Leave, there are at most two seats,
every seat's color is black or white, and the second seat (when present) is
white.  The original biconditional — two seats iff the colors are exactly
`{black, white}` — fails: `claim3_counterexample` reaches a room with two
white seats. -/
theorem claim3_seat_invariant (ops : List SeatOp) :
    SeatInv (runSeatOps ops) := by
  suffices h : ∀ (l : List SeatOp) (r : GameRoom), SeatInv r →
      SeatInv (l.foldl seatStep r) by
    apply h
    exact ⟨by simp [GameRoom.new], by simp [GameRoom.new],
      by intro p q rest heq; simp [GameRoom.new] at heq⟩
  intro l
  induction l with
  | nil => intro r h; exact h
  | cons op rest ih =>
    intro r h
    exact ih (seatStep r op) (seatStep_preserves r op h)

/-- Witness for the amended C3 at a concrete operation sequence. -/
theorem claim3_seat_invariant_witness :
    (runSeatOps seatOpsCE).players.length ≤ 2 :=
  (claim3_seat_invariant seatOpsCE).1

/-! ## C4: READY with both seats ready -/

/-- Unfolding `handle_ready` for a seated player. -/
theorem handle_ready_seated (r : GameRoom) (sock : Nat) (now : Int)
    (p : Player) (hp : r.get_player_by_socket sock = some p) :
    handle_ready r sock now =
      (let r1 := r.set_player_ready sock (!p.ready)
       if r1.are_all_players_ready then
         ({ r1 with status := "playing" }).start_timer now
       else r1) := by
  rw [handle_ready, hp]

/-- A waiting room with two seated players, a leftover stone on the board and
the turn on white: seat A is ready, seat B is about to toggle ready. -/
def waitingRoomStale : GameRoom :=
  { players := [{ sock := some 1, name := "A", color := "black", ready := true },
                { sock := some 2, name := "B", color := "white", ready := false }],
    status := "waiting",
    board := { size := 15,
               cells := fun x y => if x = 0 ∧ y = 0 then some "black" else none },
    current_turn := "white",
    turn_start_time := none,
    turn_time_limit := 60,
    is_paused := false,
    disconnected_players := [],
    reconnect_attempts := [],
    rematch_requests := [] }

/-- Counterexample to C4: when the READY that makes both seats ready arrives,
the room does transition to Playing and the 60 s timer is armed, but the
board is NOT reset (the stale stone survives) and the current turn is NOT set
to black — `handle_ready` touches neither. -/
theorem claim4_counterexample :
    (handle_ready waitingRoomStale 2 1000).status = "playing" ∧
    (handle_ready waitingRoomStale 2 1000).turn_start_time = some 1000 ∧
    (handle_ready waitingRoomStale 2 1000).board.cells 0 0 = some "black" ∧
    (handle_ready waitingRoomStale 2 1000).board.cells 0 0 ≠ none ∧
    (handle_ready waitingRoomStale 2 1000).current_turn = "white" ∧
    (handle_ready waitingRoomStale 2 1000).current_turn ≠ "black" := by
  refine ⟨by decide, by decide, ?_, ?_, by decide, by decide⟩ <;> decide

/-- C4 amended: for any room and any seated player whose READY toggle makes
`are_all_players_ready()` hold, the handler (which never checks the current
status) sets the status to Playing and, when the room is not paused, arms the
60 s turn timer — but it leaves the board grid and the current turn exactly
as they were.  (In rooms actually reachable in status Waiting the board is
already empty and the turn already black, so the spec's description of the
post-state is only accurate up to that.) -/
theorem claim4_ready_start (r : GameRoom) (sock : Nat) (now : Int)
    (p : Player) (hp : r.get_player_by_socket sock = some p)
    (hall : (r.set_player_ready sock (!p.ready)).are_all_players_ready = true)
    (hpause : r.is_paused = false) :
    (handle_ready r sock now).status = "playing" ∧
    (handle_ready r sock now).board = r.board ∧
    (handle_ready r sock now).current_turn = r.current_turn ∧
    (handle_ready r sock now).turn_start_time = some now ∧
    (handle_ready r sock now).turn_time_limit = r.turn_time_limit := by
  rw [handle_ready_seated r sock now p hp]
  simp only [hall, if_pos]
  simp [GameRoom.start_timer, GameRoom.set_player_ready, hpause]

/-- A clean waiting room: empty board, black's turn, A ready, B not yet. -/
def waitingRoomClean : GameRoom :=
  { players := [{ sock := some 1, name := "A", color := "black", ready := true },
                { sock := some 2, name := "B", color := "white", ready := false }],
    status := "waiting",
    board := GomokuBoard.new,
    current_turn := "black",
    turn_start_time := none,
    turn_time_limit := 60,
    is_paused := false,
    disconnected_players := [],
    reconnect_attempts := [],
    rematch_requests := [] }

/-- Witness for the amended C4 on the clean waiting room. -/
theorem claim4_ready_start_witness :
    (handle_ready waitingRoomClean 2 5).status = "playing" ∧
    (handle_ready waitingRoomClean 2 5).turn_start_time = some 5 := by
  have h := claim4_ready_start waitingRoomClean 2 5
    { sock := some 2, name := "B", color := "white", ready := false }
    (by decide) (by decide) (by decide)
  exact ⟨h.1, h.2.2.2.1⟩

/-! ## C5: turn timeout -/

/-- C5.  In a playing, unpaused room, a turn timeout swaps the current turn
to the opposite color and re-arms the 60 s timer, leaving the board, the
status (still Playing), and the seats untouched — no stone is placed and the
game does not end.  If the room is no longer playing when the timeout fires,
the room is left completely unchanged. -/
theorem claim5_timeout_effect (r : GameRoom) (now : Int) :
    (r.status = "playing" → r.is_paused = false →
      (handle_timer_timeout r now).current_turn =
        (if r.current_turn = "black" then "white" else "black") ∧
      (handle_timer_timeout r now).turn_start_time = some now ∧
      (handle_timer_timeout r now).turn_time_limit = r.turn_time_limit ∧
      (handle_timer_timeout r now).board = r.board ∧
      (handle_timer_timeout r now).status = "playing" ∧
      (handle_timer_timeout r now).players = r.players) ∧
    (r.status ≠ "playing" → handle_timer_timeout r now = r) := by
  constructor
  · intro hs hp
    unfold handle_timer_timeout
    rw [if_neg (by simp [hs])]
    simp [GameRoom.switch_turn, GameRoom.start_timer, hp, hs]
  · intro hs
    unfold handle_timer_timeout
    rw [if_pos hs]

/-- A playing room on black's turn with one black stone down. -/
def playingRoom : GameRoom :=
  { players := [{ sock := some 1, name := "A", color := "black", ready := true },
                { sock := some 2, name := "B", color := "white", ready := true }],
    status := "playing",
    board := GomokuBoard.new,
    current_turn := "black",
    turn_start_time := some 0,
    turn_time_limit := 60,
    is_paused := false,
    disconnected_players := [],
    reconnect_attempts := [],
    rematch_requests := [] }

/-- Witness for C5 on a concrete playing room. -/
theorem claim5_timeout_effect_witness :
    (handle_timer_timeout playingRoom 60).current_turn = "white" ∧
    (handle_timer_timeout playingRoom 60).turn_start_time = some 60 ∧
    (handle_timer_timeout playingRoom 60).status = "playing" := by
  have h := (claim5_timeout_effect playingRoom 60).1 (by decide) (by decide)
  exact ⟨by rw [h.1]; decide, h.2.1, h.2.2.2.2.1⟩

/-! ## C6: reconnect acceptance -/

/-- After `del d[k]`, `k` has no binding. -/
theorem lookup_eraseAssoc {α : Type} (l : List (String × α)) (k : String) :
    (eraseAssoc l k).lookup k = none := by
  induction l with
  | nil => rfl
  | cons kv rest ih =>
    obtain ⟨k0, v0⟩ := kv
    rw [eraseAssoc]
    by_cases hk : k0 = k
    · rw [if_pos hk]; exact ih
    · rw [if_neg hk]
      have hbeq : (k == k0) = false := beq_eq_false_iff_ne.mpr
        (fun h => hk h.symm)
      simp [List.lookup_cons, hbeq, ih]

/-- After `d[k] = v`, looking up `k` yields `v`. -/
theorem lookup_setAssoc {α : Type} (l : List (String × α)) (k : String)
    (v : α) : (setAssoc l k v).lookup k = some v := by
  induction l with
  | nil => simp [setAssoc, List.lookup_cons]
  | cons kv rest ih =>
    obtain ⟨k0, v0⟩ := kv
    rw [setAssoc]
    by_cases hk : k0 = k
    · rw [if_pos hk]
      simp [List.lookup_cons]
    · rw [if_neg hk]
      have hbeq : (k == k0) = false := beq_eq_false_iff_ne.mpr
        (fun h => hk h.symm)
      simp [List.lookup_cons, hbeq, ih]

/-- The state fields `reconnect_player` rewrites, on the success path. -/
theorem reconnect_player_success_fields (r : GameRoom) (name : String)
    (sock : Nat) (now : Int)
    (hacc : (r.reconnect_player name sock now).2 = true) :
    (r.reconnect_player name sock now).1.disconnected_players =
      eraseAssoc r.disconnected_players name ∧
    (r.reconnect_player name sock now).1.players =
      rebindFirstByName r.players name sock ∧
    (r.reconnect_player name sock now).1.reconnect_attempts =
      setAssoc r.reconnect_attempts name
        (lookupNat r.reconnect_attempts name + 1) := by
  unfold GameRoom.reconnect_player at hacc ⊢
  by_cases h0 : (r.disconnected_players.lookup name).isNone = true
  · rw [if_pos h0] at hacc
    simp at hacc
  · rw [if_neg h0] at hacc ⊢
    by_cases h1 : ¬ r.can_reconnect name now = true
    · rw [if_pos h1] at hacc
      simp at hacc
    · rw [if_neg h1] at hacc ⊢
      simp only [GameRoom.start_timer]
      split
      · split <;> simp
      · simp

/-- C6.  A reconnect is accepted iff the player has a disconnection record,
the record's age is at most the 180 s grace period, and the recorded attempt
count is strictly below the maximum of 2 (so a third reconnect after two
prior successful ones is rejected, and so is one past the 180 s boundary).
On acceptance the seat's socket is rebound, the disconnection record is
removed, and the attempt count is bumped. -/
theorem claim6_reconnect_accept_iff (r : GameRoom) (name : String)
    (sock : Nat) (now : Int) :
    ((r.reconnect_player name sock now).2 = true ↔
      ∃ info, r.disconnected_players.lookup name = some info ∧
        now - info.disconnect_time ≤ reconnect_timeout ∧
        lookupNat r.reconnect_attempts name < max_reconnect_attempts) ∧
    ((r.reconnect_player name sock now).2 = true →
      (r.reconnect_player name sock now).1.disconnected_players.lookup name
        = none ∧
      (r.reconnect_player name sock now).1.players =
        rebindFirstByName r.players name sock ∧
      lookupNat (r.reconnect_player name sock now).1.reconnect_attempts name
        = lookupNat r.reconnect_attempts name + 1) := by
  constructor
  · cases hl : r.disconnected_players.lookup name with
    | none =>
      constructor
      · intro hacc
        unfold GameRoom.reconnect_player at hacc
        rw [if_pos (by rw [hl]; rfl)] at hacc
        simp at hacc
      · rintro ⟨info, hinfo, -⟩
        exact absurd hinfo (by simp)
    | some info =>
      have hcr : r.can_reconnect name now =
          (if max_reconnect_attempts ≤ lookupNat r.reconnect_attempts name
           then false
           else decide (now - info.disconnect_time ≤ reconnect_timeout)) := by
        rw [GameRoom.can_reconnect, hl]
      constructor
      · intro hacc
        unfold GameRoom.reconnect_player at hacc
        rw [if_neg (by rw [hl]; simp)] at hacc
        by_cases hc : ¬ r.can_reconnect name now = true
        · rw [if_pos hc] at hacc; simp at hacc
        · rw [Decidable.not_not] at hc
          rw [hcr] at hc
          by_cases hatt :
              max_reconnect_attempts ≤ lookupNat r.reconnect_attempts name
          · rw [if_pos hatt] at hc; simp at hc
          · rw [if_neg hatt] at hc
            exact ⟨info, rfl, by simpa using hc, by omega⟩
      · rintro ⟨info', hinfo', htime, hatt⟩
        have heq : info = info' := by injection hinfo'
        subst heq
        unfold GameRoom.reconnect_player
        rw [if_neg (by rw [hl]; simp)]
        rw [if_neg (by
          rw [Decidable.not_not, hcr, if_neg (by omega)]
          simpa using htime)]
  · intro hacc
    obtain ⟨hd, hp, ha⟩ :=
      reconnect_player_success_fields r name sock now hacc
    refine ⟨?_, hp, ?_⟩
    · rw [hd]; exact lookup_eraseAssoc _ _
    · rw [lookupNat, ha, lookup_setAssoc]; rfl

/-- A playing, paused room with a disconnection record for A (one prior
reconnect already used). -/
def pausedRoom : GameRoom :=
  { players := [{ sock := none, name := "A", color := "black", ready := true },
                { sock := some 2, name := "B", color := "white", ready := true }],
    status := "playing",
    board := GomokuBoard.new,
    current_turn := "black",
    turn_start_time := none,
    turn_time_limit := 60,
    is_paused := true,
    disconnected_players :=
      [("A", { disconnect_time := 0, color := "black", reconnect_count := 1 })],
    reconnect_attempts := [("A", 1)],
    rematch_requests := [] }

/-- Witness for C6: A reconnects 100 s after the disconnect with one prior
attempt — accepted, the record is gone and the seat rebound. -/
theorem claim6_reconnect_accept_iff_witness :
    (pausedRoom.reconnect_player "A" 7 100).2 = true ∧
    (pausedRoom.reconnect_player "A" 7 100).1.disconnected_players.lookup "A"
      = none ∧
    (pausedRoom.reconnect_player "A" 7 100).1.players =
      rebindFirstByName pausedRoom.players "A" 7 := by
  have h := claim6_reconnect_accept_iff pausedRoom "A" 7 100
  have hacc : (pausedRoom.reconnect_player "A" 7 100).2 = true :=
    h.1.mpr ⟨{ disconnect_time := 0, color := "black", reconnect_count := 1 },
      rfl, by decide, by decide⟩
  exact ⟨hacc, (h.2 hacc).1, (h.2 hacc).2.1⟩

/-! ## C7: disconnect with the reconnect count already at the maximum -/

/-- A playing room in which seat A has already used both reconnect
attempts. -/
def maxedRoom : GameRoom :=
  { players := [{ sock := some 1, name := "A", color := "black", ready := true },
                { sock := some 2, name := "B", color := "white", ready := true }],
    status := "playing",
    board := GomokuBoard.new,
    current_turn := "black",
    turn_start_time := some 0,
    turn_time_limit := 60,
    is_paused := false,
    disconnected_players := [],
    reconnect_attempts := [("A", 2)],
    rematch_requests := [] }

/-- C7, evaluated on the failing input: when A's connection is lost with the
reconnect count already at the maximum, the code does NOT forfeit the seat.
The room stays in status Playing (merely paused with the timer stopped), no
disconnection record is created — so A can never reconnect and the forfeit
sweeper (which only inspects disconnection records) never fires.  The claim
says the room should transition to Finished with B as winner. -/
theorem claim7_no_forfeit_divergence :
    ((maxedRoom.remove_player 1 true 100).1.status = "playing" ∧
     (maxedRoom.remove_player 1 true 100).1.status ≠ "finished") ∧
    (maxedRoom.remove_player 1 true 100).1.is_paused = true ∧
    (maxedRoom.remove_player 1 true 100).1.turn_start_time = none ∧
    (maxedRoom.remove_player 1 true 100).1.disconnected_players = [] ∧
    (maxedRoom.remove_player 1 true 100).1.players.length = 2 ∧
    (maxedRoom.remove_player 1 true 100).1.can_reconnect "A" 100 = false ∧
    (maxedRoom.remove_player 1 true 100).1.check_reconnect_timeout 100000
      = [] := by
  decide

/-! ## C8: stone-count balance while Playing -/

/-- `count_stones`, per color: the number of cells of the grid holding that
color (the Python method walks the grid tallying black, white and empty). -/
def GomokuBoard.count_stones (b : GomokuBoard) (c : String) : Nat :=
  (((Finset.range b.size) ×ˢ (Finset.range b.size)).filter
    (fun q => b.cells q.1 q.2 = some c)).card

/-- Placing one stone on an empty in-range cell raises the matching color's
count by one and leaves the other counts unchanged. -/
theorem count_stones_update (b : GomokuBoard) (x y : Nat)
    (hx : x < b.size) (hy : y < b.size) (hempty : b.cells x y = none)
    (color c : String) :
    (b.updateCell x y (some color)).count_stones c =
      b.count_stones c + (if color = c then 1 else 0) := by
  unfold GomokuBoard.count_stones GomokuBoard.updateCell
  simp only []
  have hxy_mem : ((x, y) : Nat × Nat) ∈
      Finset.range b.size ×ˢ Finset.range b.size := by
    simp [Finset.mem_product, hx, hy]
  rw [Finset.card_filter, Finset.card_filter]
  rw [← Finset.add_sum_erase _ _ hxy_mem, ← Finset.add_sum_erase _ _ hxy_mem]
  have hsum : ∑ q ∈ (Finset.range b.size ×ˢ Finset.range b.size).erase (x, y),
        (if (if q.1 = x ∧ q.2 = y then some color else b.cells q.1 q.2)
          = some c then 1 else 0)
      = ∑ q ∈ (Finset.range b.size ×ˢ Finset.range b.size).erase (x, y),
        (if b.cells q.1 q.2 = some c then 1 else 0) := by
    apply Finset.sum_congr rfl
    intro q hq
    have hne : q ≠ (x, y) := (Finset.mem_erase.mp hq).1
    have hqe : ¬(q.1 = x ∧ q.2 = y) := by
      rintro ⟨h1, h2⟩
      exact hne (Prod.ext h1 h2)
    rw [if_neg hqe]
  rw [hsum]
  by_cases hc : color = c
  · subst hc
    simp [hempty]
    omega
  · simp [hempty, hc]

/-- Inversion of a successful `place_stone`: the updated board is a single
cell write, the position was valid and the cell was empty. -/
theorem place_stone_success_inversion (b b' : GomokuBoard) (x y : Int)
    (color : String) (h : b.place_stone x y color = (b', none)) :
    b' = b.updateCell x.toNat y.toNat (some color) ∧
    b.is_valid_position x y = true ∧
    b.cells x.toNat y.toNat = none := by
  unfold GomokuBoard.place_stone at h
  by_cases hv : b.is_valid_position x y = true
  · by_cases he : b.is_empty x y = true
    · by_cases hcl : (["black", "white"] : List String).contains color = true
      · have hor : color = "black" ∨ color = "white" := by simpa using hcl
        rw [if_neg (by simp [hv]), if_neg (by simp [he]),
          if_neg (by rcases hor with rfl | rfl <;> decide)] at h
        have hb' : b' = b.updateCell x.toNat y.toNat (some color) :=
          (congrArg Prod.fst h).symm
        have hemp : b.cells x.toNat y.toNat = none := by
          have := he
          unfold GomokuBoard.is_empty at this
          rw [if_neg (by simp [hv])] at this
          exact Option.isNone_iff_eq_none.mp this
        exact ⟨hb', hv, hemp⟩
      · rw [if_neg (by simp [hv]), if_neg (by simp [he]),
          if_pos (by simp [Bool.not_eq_true] at hcl; simp [hcl])] at h
        exact absurd (congrArg Prod.snd h) (by simp)
    · rw [if_neg (by simp [hv]),
        if_pos (by simp [Bool.not_eq_true] at he; simp [he])] at h
      exact absurd (congrArg Prod.snd h) (by simp)
  · rw [if_pos (by simp [Bool.not_eq_true] at hv; simp [hv])] at h
    exact absurd (congrArg Prod.snd h) (by simp)

/-- `start_timer` never changes the board. -/
theorem start_timer_board (r : GameRoom) (now : Int) :
    (r.start_timer now).board = r.board := by
  unfold GameRoom.start_timer; split <;> rfl

/-- `start_timer` never changes the status. -/
theorem start_timer_status (r : GameRoom) (now : Int) :
    (r.start_timer now).status = r.status := by
  unfold GameRoom.start_timer; split <;> rfl

/-- `start_timer` never changes the turn. -/
theorem start_timer_turn (r : GameRoom) (now : Int) :
    (r.start_timer now).current_turn = r.current_turn := by
  unfold GameRoom.start_timer; split <;> rfl

/-- The events C8 quantifies over: a PLACE_STONE request and a turn
timeout. -/
inductive GameOp where
  | place (sock : Nat) (x y : Int)
  | timeout
deriving DecidableEq

/-- One C8 event on a room. -/
def gameStep (r : GameRoom) : GameOp → GameRoom
  | .place s x y => handle_place_stone r s x y 0
  | .timeout => handle_timer_timeout r 0

/-- Rooms reachable from the freshly started game by placements and
timeouts. -/
def runGame (ops : List GameOp) : GameRoom :=
  ops.foldl gameStep playingRoom

/-- Black places, black's opponent times out, black places again. -/
def gameOpsCE : List GameOp := [.place 1 0 0, .timeout, .place 1 0 1]

/-- Counterexample to C8: after black's placement, a timeout on white's turn
hands the move back to black, who places again — a reachable Playing state
whose black count exceeds the white count by two. -/
theorem claim8_counterexample :
    (runGame gameOpsCE).status = "playing" ∧
    (runGame gameOpsCE).board.count_stones "black" = 2 ∧
    (runGame gameOpsCE).board.count_stones "white" = 0 := by
  decide

/-- The balance invariant placements alone maintain: the counts differ by 0
or 1, and while playing the color about to move is behind iff it is white. -/
def StoneInv (r : GameRoom) : Prop :=
  (r.board.count_stones "black" = r.board.count_stones "white" ∨
   r.board.count_stones "black" = r.board.count_stones "white" + 1) ∧
  (r.status = "playing" →
    (r.current_turn = "black" ∧
      r.board.count_stones "black" = r.board.count_stones "white") ∨
    (r.current_turn = "white" ∧
      r.board.count_stones "black" = r.board.count_stones "white" + 1))

/-- Unfolding `handle_place_stone` for a seated player. -/
theorem handle_place_stone_seated (r : GameRoom) (sock : Nat) (x y : Int)
    (now : Int) (p : Player) (hp : r.get_player_by_socket sock = some p) :
    handle_place_stone r sock x y now =
      (if r.status ≠ "playing" then r
       else if p.color ≠ r.current_turn then r
       else
         match r.board.place_stone x y p.color with
         | (_, some _) => r
         | (b', none) =>
           let r1 := { r with board := b' }
           match b'.check_winner x.toNat y.toNat with
           | some _ => { r1.stop_timer with status := "finished" }
           | none => ((r1.stop_timer).switch_turn).start_timer now) := by
  rw [handle_place_stone, hp]

/-- Unfolding `handle_place_stone` past a successful board write. -/
theorem handle_place_stone_success (r : GameRoom) (sock : Nat)
    (x y now : Int) (p : Player) (b' : GomokuBoard)
    (hp : r.get_player_by_socket sock = some p)
    (hs : r.status = "playing") (hcol : p.color = r.current_turn)
    (hps : r.board.place_stone x y p.color = (b', none)) :
    handle_place_stone r sock x y now =
      (match b'.check_winner x.toNat y.toNat with
       | some _ =>
         { ({ r with board := b' } : GameRoom).stop_timer with
           status := "finished" }
       | none =>
         ((({ r with board := b' } : GameRoom).stop_timer).switch_turn).start_timer
           now) := by
  rw [handle_place_stone_seated r sock x y now p hp,
    if_neg (by simp [hs]), if_neg (by simp [hcol]), hps]

/-- `handle_place_stone` is a no-op when the board write fails. -/
theorem handle_place_stone_board_error (r : GameRoom) (sock : Nat)
    (x y now : Int) (p : Player) (b' : GomokuBoard) (err : PlaceError)
    (hp : r.get_player_by_socket sock = some p)
    (hs : r.status = "playing") (hcol : p.color = r.current_turn)
    (hps : r.board.place_stone x y p.color = (b', some err)) :
    handle_place_stone r sock x y now = r := by
  rw [handle_place_stone_seated r sock x y now p hp,
    if_neg (by simp [hs]), if_neg (by simp [hcol]), hps]

/-- A placement preserves the stone-balance invariant. -/
theorem place_preserves_StoneInv (r : GameRoom) (sock : Nat) (x y : Int)
    (now : Int) (h : StoneInv r) :
    StoneInv (handle_place_stone r sock x y now) := by
  obtain ⟨hbal, hturn⟩ := h
  cases hp : r.get_player_by_socket sock with
  | none => rw [handle_place_stone, hp]; exact ⟨hbal, hturn⟩
  | some p =>
    by_cases hs : r.status ≠ "playing"
    · rw [handle_place_stone_seated r sock x y now p hp, if_pos hs]
      exact ⟨hbal, hturn⟩
    · rw [Decidable.not_not] at hs
      by_cases hcol : p.color ≠ r.current_turn
      · rw [handle_place_stone_seated r sock x y now p hp,
          if_neg (by simp [hs]), if_pos hcol]
        exact ⟨hbal, hturn⟩
      · rw [Decidable.not_not] at hcol
        cases hps : r.board.place_stone x y p.color with
        | mk b' e =>
          cases e with
          | some err =>
            rw [handle_place_stone_board_error r sock x y now p b' err hp hs
              hcol hps]
            exact ⟨hbal, hturn⟩
          | none =>
            rw [handle_place_stone_success r sock x y now p b' hp hs hcol hps]
            obtain ⟨hb', hvalid, hemp⟩ :=
              place_stone_success_inversion r.board b' x y p.color hps
            have hxr : x.toNat < r.board.size := by
              unfold GomokuBoard.is_valid_position at hvalid
              simp at hvalid
              omega
            have hyr : y.toNat < r.board.size := by
              unfold GomokuBoard.is_valid_position at hvalid
              simp at hvalid
              omega
            have hcb := count_stones_update r.board x.toNat y.toNat hxr hyr
              hemp p.color "black"
            have hcw := count_stones_update r.board x.toNat y.toNat hxr hyr
              hemp p.color "white"
            rw [← hb'] at hcb hcw
            rcases hturn hs with ⟨hblack, hcnt⟩ | ⟨hwhite, hcnt⟩
            · -- black to move, counts equal; the stone placed is black
              have hpc : p.color = "black" := hcol.trans hblack
              rw [if_pos hpc] at hcb
              rw [if_neg (by rw [hpc]; decide)] at hcw
              cases hw : b'.check_winner x.toNat y.toNat with
              | some w =>
                refine ⟨?_, ?_⟩
                · right
                  show b'.count_stones "black" = b'.count_stones "white" + 1
                  rw [hcb, hcw, hcnt]
                · intro hst
                  have hfin : ("finished" : String) = "playing" := hst
                  exact absurd hfin (by decide)
              | none =>
                constructor
                · right
                  rw [start_timer_board]
                  show b'.count_stones "black" = b'.count_stones "white" + 1
                  rw [hcb, hcw, hcnt]
                · intro _
                  right
                  rw [start_timer_board, start_timer_turn]
                  constructor
                  · show (if r.current_turn = "black" then "white" else "black")
                      = "white"
                    rw [if_pos hblack]
                  · show b'.count_stones "black" = b'.count_stones "white" + 1
                    rw [hcb, hcw, hcnt]
            · -- white to move, black one ahead; the stone placed is white
              have hpc : p.color = "white" := hcol.trans hwhite
              rw [if_pos hpc] at hcw
              rw [if_neg (by rw [hpc]; decide)] at hcb
              cases hw : b'.check_winner x.toNat y.toNat with
              | some w =>
                refine ⟨?_, ?_⟩
                · left
                  show b'.count_stones "black" = b'.count_stones "white"
                  rw [hcb, hcw, hcnt]
                · intro hst
                  have hfin : ("finished" : String) = "playing" := hst
                  exact absurd hfin (by decide)
              | none =>
                constructor
                · left
                  rw [start_timer_board]
                  show b'.count_stones "black" = b'.count_stones "white"
                  rw [hcb, hcw, hcnt]
                · intro _
                  left
                  rw [start_timer_board, start_timer_turn]
                  constructor
                  · show (if r.current_turn = "black" then "white" else "black")
                      = "black"
                    rw [if_neg (by rw [hwhite]; decide)]
                  · show b'.count_stones "black" = b'.count_stones "white"
                    rw [hcb, hcw, hcnt]

/-- C8 amended: along any run of PLACE_STONE events alone (no timeouts)
from a freshly started game, the black and white stone counts differ by 0
or 1.  The original claim — the balance holds across timeouts too — fails:
a timeout swaps the turn without placing a stone, so the same color can
place twice in a row (`claim8_counterexample` reaches black = 2, white = 0
while still Playing). -/
theorem claim8_balance_placements_only (ops : List GameOp)
    (hops : ∀ op ∈ ops, op ≠ GameOp.timeout) :
    (runGame ops).board.count_stones "black" =
        (runGame ops).board.count_stones "white" ∨
    (runGame ops).board.count_stones "black" =
        (runGame ops).board.count_stones "white" + 1 := by
  suffices h : ∀ (l : List GameOp) (r : GameRoom),
      (∀ op ∈ l, op ≠ GameOp.timeout) → StoneInv r →
      StoneInv (l.foldl gameStep r) by
    refine (h ops playingRoom hops ⟨?_, ?_⟩).1
    · left; decide
    · intro _; left; exact ⟨rfl, by decide⟩
  intro l
  induction l with
  | nil => intro r _ hr; exact hr
  | cons op rest ih =>
    intro r hl hr
    have hop : op ≠ GameOp.timeout := hl op (List.mem_cons_self _ _)
    have hrest : ∀ o ∈ rest, o ≠ GameOp.timeout :=
      fun o ho => hl o (List.mem_cons_of_mem _ ho)
    cases op with
    | place s x y =>
      exact ih (gameStep r (.place s x y)) hrest
        (place_preserves_StoneInv r s x y 0 hr)
    | timeout => exact absurd rfl hop

/-- Witness for the amended C8 on a one-placement run. -/
theorem claim8_balance_placements_only_witness :
    (runGame [GameOp.place 1 7 7]).board.count_stones "black" =
        (runGame [GameOp.place 1 7 7]).board.count_stones "white" ∨
    (runGame [GameOp.place 1 7 7]).board.count_stones "black" =
        (runGame [GameOp.place 1 7 7]).board.count_stones "white" + 1 :=
  claim8_balance_placements_only [GameOp.place 1 7 7] (by decide)

/-! ## C9: rematch start -/

/-- The color swap of `start_rematch` is an involution. -/
theorem swapColor_swapColor (c : String) : swapColor (swapColor c) = c := by
  unfold swapColor
  by_cases hb : c = "black"
  · simp [hb]
  · by_cases hw : c = "white"
    · simp [hw]
    · simp [hb, hw]

/-- C9.  For a finished room with two seated players whose rematch is
mutually agreed, `start_rematch` clears the board (same size, all cells
empty), sets the current turn to black, transitions the status to Playing,
clears the rematch agreement set, keeps the seats (same names, in order)
while swapping each seat's color black↔white and marking it ready; and two
consecutive rematches restore every seat's original color. -/
theorem claim9_start_rematch (r : GameRoom) (_hs : r.status = "finished")
    (_h2 : r.players.length = 2) (_hagree : r.is_rematch_agreed = true) :
    (∀ x y : Nat, r.start_rematch.board.cells x y = none) ∧
    r.start_rematch.board.size = r.board.size ∧
    r.start_rematch.current_turn = "black" ∧
    r.start_rematch.status = "playing" ∧
    r.start_rematch.rematch_requests = [] ∧
    r.start_rematch.players.map Player.name = r.players.map Player.name ∧
    (∀ p ∈ r.start_rematch.players, p.ready = true) ∧
    r.start_rematch.players.map Player.color =
      r.players.map (fun p => swapColor p.color) ∧
    (r.start_rematch.start_rematch).players.map Player.color =
      r.players.map Player.color := by
  refine ⟨fun x y => rfl, rfl, rfl, rfl, rfl, ?_, ?_, ?_, ?_⟩
  · show (r.players.map (fun p =>
        { p with color := swapColor p.color, ready := true })).map Player.name
      = r.players.map Player.name
    rw [List.map_map]
    rfl
  · intro p hp
    obtain ⟨q, hq, rfl⟩ := List.mem_map.mp hp
    rfl
  · show (r.players.map (fun p =>
        { p with color := swapColor p.color, ready := true })).map Player.color
      = r.players.map (fun p => swapColor p.color)
    rw [List.map_map]
    rfl
  · show ((r.players.map (fun p : Player =>
        ({ p with color := swapColor p.color, ready := true } : Player))).map
          (fun p : Player =>
        ({ p with color := swapColor p.color, ready := true } : Player))).map
          Player.color
      = r.players.map Player.color
    induction r.players with
    | nil => rfl
    | cons a t ih => simp [ih, swapColor_swapColor]

/-- A finished game: black (seat A) has just won with five in a row, both
seats have agreed to a rematch. -/
def finishedRoom : GameRoom :=
  { players := [{ sock := some 1, name := "A", color := "black", ready := true },
                { sock := some 2, name := "B", color := "white", ready := true }],
    status := "finished",
    board := rowFiveBoard,
    current_turn := "black",
    turn_start_time := none,
    turn_time_limit := 60,
    is_paused := false,
    disconnected_players := [],
    reconnect_attempts := [],
    rematch_requests := [("A", true), ("B", true)] }

/-- Witness for C9: the concrete finished room restarts with a clear board,
black to move, seats' colors swapped, and a second rematch restores them. -/
theorem claim9_start_rematch_witness :
    finishedRoom.start_rematch.status = "playing" ∧
    finishedRoom.start_rematch.current_turn = "black" ∧
    finishedRoom.start_rematch.board.cells 7 5 = none ∧
    finishedRoom.start_rematch.players.map Player.color =
      ["white", "black"] ∧
    (finishedRoom.start_rematch.start_rematch).players.map Player.color =
      ["black", "white"] := by
  have h := claim9_start_rematch finishedRoom rfl rfl (by decide)
  refine ⟨h.2.2.2.1, h.2.2.1, h.1 7 5, ?_, ?_⟩
  · rw [h.2.2.2.2.2.2.2.1]; decide
  · rw [h.2.2.2.2.2.2.2.2]; decide

/-! ## C10: the wire protocol (`common/protocol.py`, class `Protocol`)

`create_message` builds `{"type": t, "data": d or {}, "timestamp": ts}`,
serializes it with `json.dumps` (default separators `", "` and `": "`), and
appends `"\n"`; `parse_messages` decodes, strips, splits on `"\n"` and runs
`json.loads` on every non-blank line, skipping lines that fail to parse.

Modelled from the spec: `json.dumps` / `json.loads` and
`datetime.now().isoformat()` are Python standard-library collaborators whose
sources are not part of this repository.  Following the specification's
envelope and transport description, JSON values are modelled over null,
booleans, integers, strings and nested arrays/objects (floats are excluded —
floating point does not embed), `dumps` as the printer below (`", "`/`": "`
separators, standard string escapes), `loads` as the recursive-descent parser
below, and the timestamp as an arbitrary string parameter.  Strings are
restricted by `okStringB` to printable ASCII plus tab, newline and carriage
return — exactly the escapes the modelled printer knows.  Bytes-level UTF-8
encode/decode is the identity at this abstraction. -/

mutual
/-- JSON values (the modelled fragment). -/
inductive JVal where
  | jnull
  | jbool (b : Bool)
  | jint (n : Int)
  | jstr (s : String)
  | jarr (elems : JArr)
  | jobj (fields : JObj)

/-- JSON array contents. -/
inductive JArr where
  | nil
  | cons (hd : JVal) (tl : JArr)

/-- JSON object contents (insertion-ordered key/value pairs, as Python
dicts are). -/
inductive JObj where
  | nil
  | cons (k : String) (v : JVal) (tl : JObj)
end

deriving instance DecidableEq for JVal, JArr, JObj

/-- A character the modelled printer can emit or escape: printable ASCII,
tab, newline or carriage return. -/
def okCharB (c : Char) : Bool :=
  (0x20 ≤ c.toNat && c.toNat < 0x7F) || c = '\n' || c = '\t' || c = '\r'

/-- All characters of the string are representable. -/
def okStringB (s : String) : Bool := s.data.all okCharB

mutual
/-- Well-formedness of a JSON value for the modelled printer: every string
(key or value) satisfies `okStringB`. -/
def jvalWfB : JVal → Bool
  | .jnull => true
  | .jbool _ => true
  | .jint _ => true
  | .jstr s => okStringB s
  | .jarr l => jarrWfB l
  | .jobj f => jobjWfB f

/-- Well-formedness of array contents. -/
def jarrWfB : JArr → Bool
  | .nil => true
  | .cons v tl => jvalWfB v && jarrWfB tl

/-- Well-formedness of object contents. -/
def jobjWfB : JObj → Bool
  | .nil => true
  | .cons k v tl => okStringB k && jvalWfB v && jobjWfB tl
end

/-- JSON string escaping of one character (the escapes `json.dumps` emits
for the modelled character set). -/
def escChar (c : Char) : List Char :=
  if c = '\"' then ['\\', '\"']
  else if c = '\\' then ['\\', '\\']
  else if c = '\n' then ['\\', 'n']
  else if c = '\t' then ['\\', 't']
  else if c = '\r' then ['\\', 'r']
  else [c]

/-- A JSON string literal: quote, escaped characters, quote. -/
def printString (s : String) : List Char :=
  '\"' :: (s.data.map escChar).flatten ++ ['\"']

/-- The decimal digit character for `d < 10`. -/
def digitChar (d : Nat) : Char :=
  match d with
  | 0 => '0' | 1 => '1' | 2 => '2' | 3 => '3' | 4 => '4'
  | 5 => '5' | 6 => '6' | 7 => '7' | 8 => '8' | _ => '9'

/-- Decimal digits of a natural number, most significant first. -/
def natDigits (n : Nat) : List Char :=
  if _h : n < 10 then [digitChar n]
  else natDigits (n / 10) ++ [digitChar (n % 10)]
decreasing_by
  exact Nat.div_lt_self (by omega) (by omega)

/-- Decimal rendering of an integer. -/
def printInt (n : Int) : List Char :=
  if n < 0 then '-' :: natDigits n.natAbs else natDigits n.natAbs

mutual
/-- The serialized form of a JSON value — `json.dumps` with its default
separators `", "` and `": "`. -/
def printJVal : JVal → List Char
  | .jnull => ['n', 'u', 'l', 'l']
  | .jbool true => ['t', 'r', 'u', 'e']
  | .jbool false => ['f', 'a', 'l', 's', 'e']
  | .jint n => printInt n
  | .jstr s => printString s
  | .jarr l => '[' :: printArrBody l ++ [']']
  | .jobj f => '\x7b' :: printObjBody f ++ ['\x7d']

/-- Array items joined by `", "`. -/
def printArrBody : JArr → List Char
  | .nil => []
  | .cons v .nil => printJVal v
  | .cons v (.cons w tl) =>
    printJVal v ++ [',', ' '] ++ printArrBody (.cons w tl)

/-- Object entries `"key": value` joined by `", "`. -/
def printObjBody : JObj → List Char
  | .nil => []
  | .cons k v .nil => printString k ++ [':', ' '] ++ printJVal v
  | .cons k v (.cons k2 w tl) =>
    printString k ++ [':', ' '] ++ printJVal v ++ [',', ' '] ++
      printObjBody (.cons k2 w tl)
end

/-- JSON insignificant whitespace (also the characters `str.strip` removes
that can occur in the modelled character set). -/
def isWsChar (c : Char) : Bool :=
  c = ' ' || c = '\t' || c = '\n' || c = '\r'

/-- Skip insignificant whitespace. -/
def skipWs (s : List Char) : List Char := s.dropWhile isWsChar

/-- A decimal digit. -/
def isDigitChar (c : Char) : Bool := 48 ≤ c.toNat && c.toNat ≤ 57

/-- Accumulate decimal digits into a natural number. -/
def digitsToNat (ds : List Char) : Nat :=
  ds.foldl (fun acc c => acc * 10 + (c.toNat - 48)) 0

/-- Parse a nonempty run of digits. -/
def pNat (s : List Char) : Option (Nat × List Char) :=
  let ds := s.takeWhile isDigitChar
  if ds.isEmpty then none else some (digitsToNat ds, s.drop ds.length)

/-- Parse a JSON integer (optional minus sign, then digits). -/
def pNum (s : List Char) : Option (Int × List Char) :=
  match s with
  | [] => none
  | c :: rest =>
    if c = '-' then (pNat rest).map (fun q => (-(q.1 : Int), q.2))
    else (pNat (c :: rest)).map (fun q => ((q.1 : Int), q.2))

/-- Decode one escape character of a JSON string literal. -/
def unesc (c : Char) : Option Char :=
  if c = 'n' then some '\n'
  else if c = 't' then some '\t'
  else if c = 'r' then some '\r'
  else if c = '\"' then some '\"'
  else if c = '\\' then some '\\'
  else none

/-- Parse the body of a JSON string literal (after the opening quote), up to
and including the closing quote. -/
def pStrBody : List Char → Option (List Char × List Char)
  | [] => none
  | c :: rest =>
    if c = '\"' then some ([], rest)
    else if c = '\\' then
      match rest with
      | [] => none
      | e :: rest2 =>
        match unesc e with
        | none => none
        | some c2 =>
          match pStrBody rest2 with
          | none => none
          | some q => some (c2 :: q.1, q.2)
    else
      match pStrBody rest with
      | none => none
      | some q => some (c :: q.1, q.2)

mutual
/-- Parse one JSON value (fuel-bounded recursive descent — every recursive
call spends one unit of fuel; `parseLine` supplies more fuel than any value
that fits in the input can need). -/
def pVal : Nat → List Char → Option (JVal × List Char)
  | 0, _ => none
  | fuel + 1, s =>
    match skipWs s with
    | [] => none
    | c :: r =>
      if c = '\x7b' then pObjBody fuel r
      else if c = '[' then pArrBody fuel r
      else if c = '\"' then
        match pStrBody r with
        | none => none
        | some q => some (.jstr (String.mk q.1), q.2)
      else if c = 'n' then
        match r with
        | 'u' :: 'l' :: 'l' :: rest => some (.jnull, rest)
        | _ => none
      else if c = 't' then
        match r with
        | 'r' :: 'u' :: 'e' :: rest => some (.jbool true, rest)
        | _ => none
      else if c = 'f' then
        match r with
        | 'a' :: 'l' :: 's' :: 'e' :: rest => some (.jbool false, rest)
        | _ => none
      else if c = '-' || isDigitChar c then
        match pNum (c :: r) with
        | none => none
        | some q => some (.jint q.1, q.2)
      else none

/-- Parse the inside of an array (after `[`). -/
def pArrBody : Nat → List Char → Option (JVal × List Char)
  | 0, _ => none
  | fuel + 1, s =>
    match skipWs s with
    | [] => none
    | c :: r =>
      if c = ']' then some (.jarr .nil, r)
      else
        match pArrLoop fuel (c :: r) with
        | none => none
        | some q => some (.jarr q.1, q.2)

/-- Parse one or more array items separated by commas, up to `]`. -/
def pArrLoop : Nat → List Char → Option (JArr × List Char)
  | 0, _ => none
  | fuel + 1, s =>
    match pVal fuel s with
    | none => none
    | some (v, r1) =>
      match skipWs r1 with
      | ',' :: r2 =>
        match pArrLoop fuel r2 with
        | none => none
        | some q => some (.cons v q.1, q.2)
      | ']' :: rest => some (.cons v .nil, rest)
      | _ => none

/-- Parse the inside of an object (after `{`). -/
def pObjBody : Nat → List Char → Option (JVal × List Char)
  | 0, _ => none
  | fuel + 1, s =>
    match skipWs s with
    | [] => none
    | c :: r =>
      if c = '\x7d' then some (.jobj .nil, r)
      else
        match pObjLoop fuel (c :: r) with
        | none => none
        | some q => some (.jobj q.1, q.2)

/-- Parse one or more `"key": value` entries separated by commas, up to
`}`. -/
def pObjLoop : Nat → List Char → Option (JObj × List Char)
  | 0, _ => none
  | fuel + 1, s =>
    match skipWs s with
    | '\"' :: r =>
      match pStrBody r with
      | none => none
      | some (k, r1) =>
        match skipWs r1 with
        | ':' :: r2 =>
          match pVal fuel r2 with
          | none => none
          | some (v, r3) =>
            match skipWs r3 with
            | ',' :: r4 =>
              match pObjLoop fuel r4 with
              | none => none
              | some q => some (.cons (String.mk k) v q.1, q.2)
            | '\x7d' :: rest => some (.cons (String.mk k) v .nil, rest)
            | _ => none
        | _ => none
    | _ => none
end

/-- `json.loads` on one line: a single JSON value with only whitespace
around it. -/
def parseLine (line : List Char) : Option JVal :=
  match pVal (2 * line.length + 1) line with
  | none => none
  | some (v, rest) => if (skipWs rest).isEmpty then some v else none

/-- Python `str.strip()` on the modelled character set. -/
def pstrip (l : List Char) : List Char :=
  ((l.dropWhile isWsChar).reverse.dropWhile isWsChar).reverse

/-- Python `text.split('\n')`. -/
def splitNl : List Char → List (List Char)
  | [] => [[]]
  | c :: rest =>
    if c = '\n' then [] :: splitNl rest
    else
      match splitNl rest with
      | [] => [[c]]
      | s :: ss => (c :: s) :: ss

/-- Whether a Python dict is falsy (empty). -/
def jobjIsNil : JObj → Bool
  | .nil => true
  | .cons _ _ _ => false

/-- `data if data else {}` of `create_message`: a missing or empty data
dict becomes `{}`. -/
def dataOf (d : Option JObj) : JObj :=
  match d with
  | none => .nil
  | some l => if jobjIsNil l then .nil else l

/-- The message envelope `{"type": t, "data": d, "timestamp": ts}` (dict
insertion order is preserved by `json.dumps`). -/
def envelope (t : String) (d : JObj) (ts : String) : JVal :=
  .jobj (.cons "type" (.jstr t)
    (.cons "data" (.jobj d)
      (.cons "timestamp" (.jstr ts) .nil)))

/-- `Protocol.create_message(msg_type, data)` — the serialized envelope plus
the `'\n'` terminator.  The timestamp string is a parameter (the code calls
`datetime.now().isoformat()`). -/
def create_message (t : String) (d : Option JObj) (ts : String) : String :=
  String.mk (printJVal (envelope t (dataOf d) ts) ++ ['\n'])

/-- `Protocol.parse_messages(raw_data)` — strip, split on newlines, skip
blank lines, parse each line, skipping lines that fail to parse. -/
def parse_messages (raw : String) : List JVal :=
  (splitNl (pstrip raw.data)).filterMap (fun line =>
    if (pstrip line).isEmpty then none else parseLine line)

/-! ### Digits and numbers -/

/-- A run of text does not start with a digit (so a maximal-munch number
parse cannot overrun into it). -/
def numSafe : List Char → Prop
  | [] => True
  | c :: _ => isDigitChar c = false

/-- `digitChar` always yields a digit character. -/
theorem digitChar_isDigit (d : Nat) : isDigitChar (digitChar d) = true := by
  unfold digitChar
  split <;> decide

/-- For `d < 10`, the code of `digitChar d` is `48 + d`. -/
theorem digitChar_toNat (d : Nat) (h : d < 10) :
    (digitChar d).toNat = 48 + d := by
  interval_cases d <;> decide

/-- `natDigits` produces at least one character. -/
theorem natDigits_ne_nil (n : Nat) : natDigits n ≠ [] := by
  rw [natDigits]
  by_cases h : n < 10
  · rw [dif_pos h]; simp
  · rw [dif_neg h]; simp

/-- Every character of `natDigits` is a digit. -/
theorem natDigits_all_digits (n : Nat) :
    ∀ c ∈ natDigits n, isDigitChar c = true := by
  induction n using Nat.strong_induction_on with
  | _ n ih =>
    rw [natDigits]
    by_cases h : n < 10
    · rw [dif_pos h]
      intro c hc
      simp at hc
      subst hc
      exact digitChar_isDigit n
    · rw [dif_neg h]
      intro c hc
      rcases List.mem_append.mp hc with hc | hc
      · exact ih (n / 10) (Nat.div_lt_self (by omega) (by omega)) c hc
      · simp at hc
        subst hc
        exact digitChar_isDigit (n % 10)

/-- Folding a trailing digit. -/
theorem digitsToNat_append (xs : List Char) (c : Char) :
    digitsToNat (xs ++ [c]) = digitsToNat xs * 10 + (c.toNat - 48) := by
  unfold digitsToNat
  rw [List.foldl_append]
  rfl

/-- `digitsToNat` inverts `natDigits`. -/
theorem digitsToNat_natDigits (n : Nat) :
    digitsToNat (natDigits n) = n := by
  induction n using Nat.strong_induction_on with
  | _ n ih =>
    rw [natDigits]
    by_cases h : n < 10
    · rw [dif_pos h]
      show digitsToNat ([] ++ [digitChar n]) = n
      rw [digitsToNat_append, digitChar_toNat n h]
      simp [digitsToNat]
    · rw [dif_neg h]
      rw [digitsToNat_append,
        ih (n / 10) (Nat.div_lt_self (by omega) (by omega)),
        digitChar_toNat (n % 10) (by omega)]
      omega

/-- `takeWhile` stops exactly at the end of an all-true prefix followed by
a failing (or absent) head. -/
theorem takeWhile_append_all (p : Char → Bool) (xs rest : List Char)
    (hall : ∀ c ∈ xs, p c = true)
    (hrest : rest = [] ∨ ∃ c cs, rest = c :: cs ∧ p c = false) :
    (xs ++ rest).takeWhile p = xs := by
  induction xs with
  | nil =>
    rcases hrest with rfl | ⟨c, cs, rfl, hc⟩
    · rfl
    · simp [List.takeWhile, hc]
  | cons x xs ih =>
    have hx : p x = true := hall x (List.mem_cons_self _ _)
    simp only [List.cons_append, List.takeWhile, hx]
    exact congrArg (List.cons x)
      (ih (fun c hc => hall c (List.mem_cons_of_mem _ hc)))

/-- `pNat` reads back exactly the digits of `n`. -/
theorem pNat_complete (n : Nat) (rest : List Char) (hrest : numSafe rest) :
    pNat (natDigits n ++ rest) = some (n, rest) := by
  have hrest' : rest = [] ∨ ∃ c cs, rest = c :: cs ∧ isDigitChar c = false := by
    cases rest with
    | nil => exact Or.inl rfl
    | cons c cs => exact Or.inr ⟨c, cs, rfl, hrest⟩
  have htake : (natDigits n ++ rest).takeWhile isDigitChar = natDigits n :=
    takeWhile_append_all isDigitChar (natDigits n) rest
      (natDigits_all_digits n) hrest'
  unfold pNat
  rw [htake]
  rw [if_neg (by simp [natDigits_ne_nil n])]
  rw [digitsToNat_natDigits, List.drop_left]

/-- `pNum` reads back exactly the decimal rendering of `n`. -/
theorem pNum_complete (n : Int) (rest : List Char) (hrest : numSafe rest) :
    pNum (printInt n ++ rest) = some (n, rest) := by
  unfold printInt
  by_cases hneg : n < 0
  · rw [if_pos hneg]
    show pNum ('-' :: (natDigits n.natAbs ++ rest)) = some (n, rest)
    simp only [pNum, if_true]
    rw [pNat_complete n.natAbs rest hrest]
    simp only [Option.map_some']
    congr 1
    have : -(n.natAbs : Int) = n := by omega
    rw [this]
  · rw [if_neg hneg]
    obtain ⟨d, ds, hds⟩ : ∃ d ds, natDigits n.natAbs = d :: ds := by
      cases hd : natDigits n.natAbs with
      | nil => exact absurd hd (natDigits_ne_nil _)
      | cons d ds => exact ⟨d, ds, rfl⟩
    rw [hds]
    show pNum (d :: (ds ++ rest)) = some (n, rest)
    have hdig : isDigitChar d = true := by
      apply natDigits_all_digits n.natAbs
      rw [hds]; exact List.mem_cons_self _ _
    have hdm : d ≠ '-' := by
      intro hcontra
      rw [hcontra] at hdig
      exact absurd hdig (by decide)
    simp only [pNum]
    rw [if_neg hdm]
    have : (d :: (ds ++ rest)) = natDigits n.natAbs ++ rest := by
      rw [hds]; rfl
    rw [this, pNat_complete n.natAbs rest hrest]
    simp only [Option.map_some']
    congr 1
    have : (n.natAbs : Int) = n := by omega
    rw [this]

/-! ### String literals -/

/-- Parsing the escape of one representable character prepends it. -/
theorem pStrBody_escChar (c : Char) (hc : okCharB c = true)
    (tail : List Char) (out : List Char) (r : List Char)
    (htail : pStrBody tail = some (out, r)) :
    pStrBody (escChar c ++ tail) = some (c :: out, r) := by
  by_cases hq : c = '\"'
  · subst hq
    simp [escChar, pStrBody, unesc, htail]
  · by_cases hb : c = '\\'
    · subst hb
      simp [escChar, pStrBody, unesc, htail]
    · by_cases hn : c = '\n'
      · subst hn
        simp [escChar, pStrBody, unesc, htail]
      · by_cases ht : c = '\t'
        · subst ht
          simp [escChar, pStrBody, unesc, htail]
        · by_cases hr : c = '\r'
          · subst hr
            simp [escChar, pStrBody, unesc, htail]
          · have hesc : escChar c = [c] := by
              simp [escChar, hq, hb, hn, ht, hr]
            rw [hesc]
            show pStrBody (c :: tail) = some (c :: out, r)
            rw [pStrBody.eq_def]
            simp only [hq, hb, if_false, htail]

/-- Parsing back a whole printed string body. -/
theorem pStrBody_print (l : List Char) (hl : ∀ c ∈ l, okCharB c = true)
    (rest : List Char) :
    pStrBody ((l.map escChar).flatten ++ '\"' :: rest) = some (l, rest) := by
  induction l with
  | nil => simp [pStrBody.eq_def]
  | cons c cs ih =>
    have hc : okCharB c = true := hl c (List.mem_cons_self _ _)
    have ihr := ih (fun x hx => hl x (List.mem_cons_of_mem _ hx))
    rw [List.map_cons, List.flatten_cons, List.append_assoc]
    exact pStrBody_escChar c hc _ cs rest ihr

/-- Parsing back a printed string literal (after its opening quote). -/
theorem pStrBody_printString (s : String) (hs : okStringB s = true)
    (rest : List Char) :
    pStrBody ((s.data.map escChar).flatten ++ '\"' :: rest)
      = some (s.data, rest) := by
  apply pStrBody_print
  intro c hc
  exact List.all_eq_true.mp hs c hc

/-! ### Whitespace and dispatch heads -/

/-- `skipWs` does not move past a non-whitespace head. -/
theorem skipWs_cons_false (c : Char) (l : List Char)
    (hc : isWsChar c = false) : skipWs (c :: l) = c :: l := by
  simp [skipWs, List.dropWhile, hc]

/-- `skipWs` swallows a single leading blank. -/
theorem skipWs_cons_space (l : List Char) :
    skipWs (' ' :: l) = skipWs l := by
  simp [skipWs, List.dropWhile]
  rfl

/-- `pVal` ignores one leading blank. -/
theorem pVal_ws (fuel : Nat) (s : List Char) :
    pVal fuel (' ' :: s) = pVal fuel s := by
  cases fuel with
  | zero => rfl
  | succ f => simp only [pVal, skipWs_cons_space]

/-- `pArrLoop` ignores one leading blank. -/
theorem pArrLoop_ws (fuel : Nat) (s : List Char) :
    pArrLoop fuel (' ' :: s) = pArrLoop fuel s := by
  cases fuel with
  | zero => rfl
  | succ f => simp only [pArrLoop, pVal_ws]

/-- `pObjLoop` ignores one leading blank. -/
theorem pObjLoop_ws (fuel : Nat) (s : List Char) :
    pObjLoop fuel (' ' :: s) = pObjLoop fuel s := by
  cases fuel with
  | zero => rfl
  | succ f => simp only [pObjLoop, skipWs_cons_space]

/-- A digit character is not whitespace and is none of the structural
characters the value dispatcher tests first. -/
theorem digit_head_facts (d : Char) (h : isDigitChar d = true) :
    isWsChar d = false ∧ d ≠ ']' ∧ d ≠ '\x7d' ∧ d ≠ '\x7b' ∧ d ≠ '[' ∧
      d ≠ '\"' ∧ d ≠ 'n' ∧ d ≠ 't' ∧ d ≠ 'f' ∧ d ≠ '-' := by
  refine ⟨?_, fun hc => absurd (hc ▸ h) (by decide),
    fun hc => absurd (hc ▸ h) (by decide),
    fun hc => absurd (hc ▸ h) (by decide),
    fun hc => absurd (hc ▸ h) (by decide),
    fun hc => absurd (hc ▸ h) (by decide),
    fun hc => absurd (hc ▸ h) (by decide),
    fun hc => absurd (hc ▸ h) (by decide),
    fun hc => absurd (hc ▸ h) (by decide),
    fun hc => absurd (hc ▸ h) (by decide)⟩
  cases hws : isWsChar d
  · rfl
  · have h4 : ((d = ' ' ∨ d = '\t') ∨ d = '\n') ∨ d = '\r' := by
      simpa [isWsChar] using hws
    rcases h4 with ((rfl | rfl) | rfl) | rfl <;> exact absurd h (by decide)

/-- The first character of a printed value is not whitespace and is neither
`]` nor `}` — so skipping whitespace and the two closing-bracket tests leave
a printed value intact. -/
theorem printJVal_head (v : JVal) :
    ∃ c cs, printJVal v = c :: cs ∧ isWsChar c = false ∧ c ≠ ']' ∧
      c ≠ '\x7d' := by
  cases v with
  | jnull => exact ⟨'n', _, rfl, by decide, by decide, by decide⟩
  | jbool b =>
    cases b
    · exact ⟨'f', _, rfl, by decide, by decide, by decide⟩
    · exact ⟨'t', _, rfl, by decide, by decide, by decide⟩
  | jint n =>
    show ∃ c cs, printInt n = c :: cs ∧ _
    unfold printInt
    by_cases hneg : n < 0
    · rw [if_pos hneg]
      exact ⟨'-', _, rfl, by decide, by decide, by decide⟩
    · rw [if_neg hneg]
      obtain ⟨d, ds, hds⟩ : ∃ d ds, natDigits n.natAbs = d :: ds := by
        cases hd : natDigits n.natAbs with
        | nil => exact absurd hd (natDigits_ne_nil _)
        | cons d ds => exact ⟨d, ds, rfl⟩
      have hdig : isDigitChar d = true := by
        apply natDigits_all_digits n.natAbs
        rw [hds]; exact List.mem_cons_self _ _
      obtain ⟨hws, hrb, hcb, -⟩ := digit_head_facts d hdig
      exact ⟨d, ds, hds, hws, hrb, hcb⟩
  | jstr s => exact ⟨'\"', _, rfl, by decide, by decide, by decide⟩
  | jarr l => exact ⟨'[', _, rfl, by decide, by decide, by decide⟩
  | jobj f => exact ⟨'\x7b', _, rfl, by decide, by decide, by decide⟩

/-! ### Fuel accounting -/

mutual
/-- Fuel needed by `pVal` to parse the printed form of `v`. -/
def needV : JVal → Nat
  | .jnull => 1
  | .jbool _ => 1
  | .jint _ => 1
  | .jstr _ => 1
  | .jarr .nil => 2
  | .jarr (.cons v tl) => needLoop (.cons v tl) + 2
  | .jobj .nil => 2
  | .jobj (.cons k v tl) => needOLoop (.cons k v tl) + 2

/-- Fuel needed by `pArrLoop` for the printed items. -/
def needLoop : JArr → Nat
  | .nil => 0
  | .cons v tl => max (needV v) (needLoop tl) + 1

/-- Fuel needed by `pObjLoop` for the printed entries. -/
def needOLoop : JObj → Nat
  | .nil => 0
  | .cons _ v tl => max (needV v) (needOLoop tl) + 1
end

/-- Every value needs at least one unit of fuel. -/
theorem needV_pos (v : JVal) : 1 ≤ needV v := by
  cases v with
  | jnull => exact le_refl _
  | jbool b => exact le_refl _
  | jint n => exact le_refl _
  | jstr s => exact le_refl _
  | jarr l => cases l <;> simp [needV]
  | jobj f => cases f <;> simp [needV]

/-- A printed integer is nonempty. -/
theorem printInt_length_pos (n : Int) : 1 ≤ (printInt n).length := by
  unfold printInt
  by_cases hneg : n < 0
  · rw [if_pos hneg]; simp
  · rw [if_neg hneg]
    exact List.length_pos.mpr (natDigits_ne_nil _)

/-- A printed string literal has at least its two quotes. -/
theorem printString_length (s : String) : 2 ≤ (printString s).length := by
  unfold printString
  simp

mutual
/-- The fuel a printed value needs is at most twice its length. -/
theorem needV_le (v : JVal) : needV v ≤ 2 * (printJVal v).length := by
  cases v with
  | jnull => decide
  | jbool b => cases b <;> decide
  | jint n =>
    have := printInt_length_pos n
    show needV (.jint n) ≤ 2 * (printInt n).length
    rw [needV]
    omega
  | jstr s =>
    have := printString_length s
    show needV (.jstr s) ≤ 2 * (printString s).length
    rw [needV]
    omega
  | jarr l =>
    cases l with
    | nil => decide
    | cons v tl =>
      have h := needLoop_le (.cons v tl)
      show needLoop (.cons v tl) + 2 ≤
        2 * ('[' :: printArrBody (.cons v tl) ++ [']']).length
      simp only [List.length_cons, List.length_append, List.length_cons,
        List.length_nil]
      omega
  | jobj f =>
    cases f with
    | nil => decide
    | cons k v tl =>
      have h := needOLoop_le (.cons k v tl)
      show needOLoop (.cons k v tl) + 2 ≤
        2 * ('\x7b' :: printObjBody (.cons k v tl) ++ ['\x7d']).length
      simp only [List.length_cons, List.length_append, List.length_cons,
        List.length_nil]
      omega

/-- The fuel printed array items need is at most twice their length plus
one. -/
theorem needLoop_le (l : JArr) :
    needLoop l ≤ 2 * (printArrBody l).length + 1 := by
  cases l with
  | nil => simp [needLoop]
  | cons v tl =>
    cases tl with
    | nil =>
      have h := needV_le v
      show max (needV v) (needLoop .nil) + 1 ≤ 2 * (printJVal v).length + 1
      simp only [needLoop]
      omega
    | cons w tl2 =>
      have h1 := needV_le v
      have h2 := needLoop_le (.cons w tl2)
      show max (needV v) (needLoop (.cons w tl2)) + 1 ≤
        2 * (printJVal v ++ [',', ' '] ++ printArrBody (.cons w tl2)).length
          + 1
      simp only [List.length_append, List.length_cons, List.length_nil]
      omega

/-- The fuel printed object entries need is at most twice their length plus
one. -/
theorem needOLoop_le (f : JObj) :
    needOLoop f ≤ 2 * (printObjBody f).length + 1 := by
  cases f with
  | nil => simp [needOLoop]
  | cons k v tl =>
    cases tl with
    | nil =>
      have h := needV_le v
      show max (needV v) (needOLoop .nil) + 1 ≤
        2 * (printString k ++ [':', ' '] ++ printJVal v).length + 1
      simp only [needOLoop, List.length_append, List.length_cons,
        List.length_nil]
      omega
    | cons k2 w tl2 =>
      have h1 := needV_le v
      have h2 := needOLoop_le (.cons k2 w tl2)
      show max (needV v) (needOLoop (.cons k2 w tl2)) + 1 ≤
        2 * (printString k ++ [':', ' '] ++ printJVal v ++ [',', ' '] ++
          printObjBody (.cons k2 w tl2)).length + 1
      simp only [List.length_append, List.length_cons, List.length_nil]
      omega
end

/-! ### Completeness of the parser on printer output -/

/-- `pVal` reads back a printed integer. -/
theorem pVal_print_int (f : Nat) (n : Int) (rest : List Char)
    (hrest : numSafe rest) :
    pVal (f + 1) (printJVal (.jint n) ++ rest) = some (.jint n, rest) := by
  show pVal (f + 1) (printInt n ++ rest) = some (.jint n, rest)
  have hpn := pNum_complete n rest hrest
  unfold printInt at hpn ⊢
  by_cases hneg : n < 0
  · rw [if_pos hneg] at hpn ⊢
    simp only [pVal, List.cons_append]
    rw [skipWs_cons_false _ _ (by decide)]
    rw [List.cons_append] at hpn
    simp [hpn]
  · rw [if_neg hneg] at hpn ⊢
    obtain ⟨d, ds, hds⟩ : ∃ d ds, natDigits n.natAbs = d :: ds := by
      cases hd : natDigits n.natAbs with
      | nil => exact absurd hd (natDigits_ne_nil _)
      | cons d ds => exact ⟨d, ds, rfl⟩
    rw [hds] at hpn ⊢
    have hdig : isDigitChar d = true := by
      apply natDigits_all_digits n.natAbs
      rw [hds]; exact List.mem_cons_self _ _
    obtain ⟨hws, -, -, hcb, hlb, hqb, hnb, htb, hfb, hmb⟩ :=
      digit_head_facts d hdig
    simp only [pVal, List.cons_append]
    rw [skipWs_cons_false _ _ hws]
    rw [List.cons_append] at hpn
    simp [hcb, hlb, hqb, hnb, htb, hfb, hmb, hdig, hpn]

/-- `pVal` reads back a printed string. -/
theorem pVal_print_str (f : Nat) (s : String) (rest : List Char)
    (hs : okStringB s = true) :
    pVal (f + 1) (printJVal (.jstr s) ++ rest) = some (.jstr s, rest) := by
  show pVal (f + 1) (printString s ++ rest) = some (.jstr s, rest)
  have hps := pStrBody_printString s hs rest
  simp only [pVal, printString, List.cons_append, List.append_assoc]
  rw [skipWs_cons_false _ _ (by decide)]
  simp [hps]

/-- The head character of nonempty printed array items. -/
theorem printArrBody_head (l : JArr) (hne : l ≠ JArr.nil) :
    ∃ c cs, printArrBody l = c :: cs ∧ isWsChar c = false ∧ c ≠ ']' ∧
      c ≠ '\x7d' := by
  cases l with
  | nil => exact absurd rfl hne
  | cons v tl =>
    obtain ⟨c, cs, hpr, h1, h2, h3⟩ := printJVal_head v
    cases tl with
    | nil => exact ⟨c, cs, by simp [printArrBody, hpr], h1, h2, h3⟩
    | cons w tl2 =>
      refine ⟨c, cs ++ [',', ' '] ++ printArrBody (.cons w tl2), ?_, h1, h2,
        h3⟩
      show printJVal v ++ [',', ' '] ++ printArrBody (.cons w tl2) = _
      rw [hpr]
      simp

/-- `pArrBody` on nonempty printed items, given the loop result. -/
theorem pArrBody_nonnil (f2 : Nat) (l : JArr) (hne : l ≠ JArr.nil)
    (rest : List Char)
    (hloop : pArrLoop f2 (printArrBody l ++ ']' :: rest) = some (l, rest)) :
    pArrBody (f2 + 1) (printArrBody l ++ ']' :: rest)
      = some (.jarr l, rest) := by
  obtain ⟨c0, cs0, hbody, hws0, hrb0, -⟩ := printArrBody_head l hne
  rw [hbody] at hloop ⊢
  simp only [List.cons_append] at hloop ⊢
  simp only [pArrBody]
  rw [skipWs_cons_false _ _ hws0]
  simp only [hrb0, if_false, hloop]

/-- `pVal` reads back a printed nonempty array, given the loop result. -/
theorem pVal_print_arr (f2 : Nat) (l : JArr) (hne : l ≠ JArr.nil)
    (rest : List Char)
    (hloop : pArrLoop f2 (printArrBody l ++ ']' :: rest) = some (l, rest)) :
    pVal (f2 + 2) (printJVal (.jarr l) ++ rest) = some (.jarr l, rest) := by
  show pVal (f2 + 2) (('[' :: (printArrBody l ++ [']'])) ++ rest)
    = some (.jarr l, rest)
  simp only [pVal, List.cons_append]
  rw [skipWs_cons_false _ _ (by decide)]
  have hassoc : (printArrBody l ++ [']']) ++ rest =
      printArrBody l ++ ']' :: rest := by simp
  simp only [hassoc]
  simp [pArrBody_nonnil f2 l hne rest hloop]

/-- `pObjBody` on nonempty printed entries, given the loop result. -/
theorem pObjBody_nonnil (f2 : Nat) (k : String) (v : JVal) (tl : JObj)
    (rest : List Char)
    (hloop : pObjLoop f2 (printObjBody (.cons k v tl) ++ '\x7d' :: rest)
      = some (.cons k v tl, rest)) :
    pObjBody (f2 + 1) (printObjBody (.cons k v tl) ++ '\x7d' :: rest)
      = some (.jobj (.cons k v tl), rest) := by
  have hbody : ∃ cs0, printObjBody (.cons k v tl) = '\"' :: cs0 := by
    cases tl with
    | nil =>
      exact ⟨(k.data.map escChar).flatten ++ ['\"'] ++ [':', ' '] ++
        printJVal v, by simp [printObjBody, printString]⟩
    | cons k2 w tl2 =>
      exact ⟨(k.data.map escChar).flatten ++ ['\"'] ++ [':', ' '] ++
        printJVal v ++ [',', ' '] ++ printObjBody (.cons k2 w tl2),
        by simp [printObjBody, printString]⟩
  obtain ⟨cs0, hbody⟩ := hbody
  rw [hbody] at hloop ⊢
  simp only [List.cons_append] at hloop ⊢
  simp only [pObjBody]
  rw [skipWs_cons_false _ _ (by decide)]
  simp only [if_neg (by decide : ¬('\"' : Char) = '\x7d'), hloop]

/-- `pVal` reads back a printed nonempty object, given the loop result. -/
theorem pVal_print_obj (f2 : Nat) (k : String) (v : JVal) (tl : JObj)
    (rest : List Char)
    (hloop : pObjLoop f2 (printObjBody (.cons k v tl) ++ '\x7d' :: rest)
      = some (.cons k v tl, rest)) :
    pVal (f2 + 2) (printJVal (.jobj (.cons k v tl)) ++ rest)
      = some (.jobj (.cons k v tl), rest) := by
  show pVal (f2 + 2)
      (('\x7b' :: (printObjBody (.cons k v tl) ++ ['\x7d'])) ++ rest)
    = some (.jobj (.cons k v tl), rest)
  simp only [pVal, List.cons_append]
  rw [skipWs_cons_false _ _ (by decide)]
  have hassoc : (printObjBody (.cons k v tl) ++ ['\x7d']) ++ rest =
      printObjBody (.cons k v tl) ++ '\x7d' :: rest := by simp
  simp only [hassoc]
  simp [pObjBody_nonnil f2 k v tl rest hloop]

/-- `pArrLoop` reads back a single printed item before `]`. -/
theorem pArrLoop_single (fl : Nat) (v : JVal) (rest : List Char)
    (hv : pVal fl (printJVal v ++ (']' :: rest)) = some (v, ']' :: rest)) :
    pArrLoop (fl + 1) (printArrBody (.cons v .nil) ++ ']' :: rest)
      = some (.cons v .nil, rest) := by
  show pArrLoop (fl + 1) (printJVal v ++ ']' :: rest)
    = some (.cons v .nil, rest)
  simp only [pArrLoop]
  simp only [hv]
  rw [skipWs_cons_false _ _ (by decide)]
  exact rfl

/-- `pArrLoop` reads back the first printed item and continues past the
comma. -/
theorem pArrLoop_cons (fl : Nat) (v w : JVal) (tl2 : JArr) (rest : List Char)
    (hv : pVal fl (printJVal v ++ (',' :: ' ' ::
        (printArrBody (.cons w tl2) ++ ']' :: rest)))
      = some (v, ',' :: ' ' :: (printArrBody (.cons w tl2) ++ ']' :: rest)))
    (hloop : pArrLoop fl (printArrBody (.cons w tl2) ++ ']' :: rest)
      = some (.cons w tl2, rest)) :
    pArrLoop (fl + 1) (printArrBody (.cons v (.cons w tl2)) ++ ']' :: rest)
      = some (.cons v (.cons w tl2), rest) := by
  show pArrLoop (fl + 1)
      ((printJVal v ++ [',', ' '] ++ printArrBody (.cons w tl2)) ++
        ']' :: rest)
      = some (.cons v (.cons w tl2), rest)
  rw [List.append_assoc, List.append_assoc]
  simp only [List.cons_append, List.nil_append]
  simp only [pArrLoop]
  simp only [hv]
  rw [skipWs_cons_false _ _ (by decide)]
  simp only [pArrLoop_ws]
  simp only [hloop]

/-- `pObjLoop` reads back a single printed entry before `}`. -/
theorem pObjLoop_single (fl : Nat) (k : String) (v : JVal) (rest : List Char)
    (hk : okStringB k = true)
    (hv : pVal fl (printJVal v ++ '\x7d' :: rest)
      = some (v, '\x7d' :: rest)) :
    pObjLoop (fl + 1) (printObjBody (.cons k v .nil) ++ '\x7d' :: rest)
      = some (.cons k v .nil, rest) := by
  show pObjLoop (fl + 1)
      ((printString k ++ [':', ' '] ++ printJVal v) ++ '\x7d' :: rest)
      = some (.cons k v .nil, rest)
  have hstr := pStrBody_printString k hk
    (':' :: ' ' :: (printJVal v ++ '\x7d' :: rest))
  simp only [printString, List.append_assoc, List.cons_append,
    List.nil_append]
  simp only [pObjLoop]
  rw [skipWs_cons_false _ _ (by decide)]
  simp only [hstr]
  rw [skipWs_cons_false _ _ (by decide)]
  simp only [pVal_ws, hv]
  rw [skipWs_cons_false _ _ (by decide)]
  exact rfl

/-- `pObjLoop` reads back the first printed entry and continues past the
comma. -/
theorem pObjLoop_cons (fl : Nat) (k : String) (v : JVal) (k2 : String)
    (w : JVal) (tl2 : JObj) (rest : List Char) (hk : okStringB k = true)
    (hv : pVal fl (printJVal v ++ (',' :: ' ' ::
        (printObjBody (.cons k2 w tl2) ++ '\x7d' :: rest)))
      = some (v, ',' :: ' ' ::
        (printObjBody (.cons k2 w tl2) ++ '\x7d' :: rest)))
    (hloop : pObjLoop fl (printObjBody (.cons k2 w tl2) ++ '\x7d' :: rest)
      = some (.cons k2 w tl2, rest)) :
    pObjLoop (fl + 1)
      (printObjBody (.cons k v (.cons k2 w tl2)) ++ '\x7d' :: rest)
      = some (.cons k v (.cons k2 w tl2), rest) := by
  show pObjLoop (fl + 1)
      ((printString k ++ [':', ' '] ++ printJVal v ++ [',', ' '] ++
        printObjBody (.cons k2 w tl2)) ++ '\x7d' :: rest)
      = some (.cons k v (.cons k2 w tl2), rest)
  have hstr := pStrBody_printString k hk
    (':' :: ' ' :: (printJVal v ++ ',' :: ' ' ::
      (printObjBody (.cons k2 w tl2) ++ '\x7d' :: rest)))
  simp only [printString, List.append_assoc, List.cons_append,
    List.nil_append]
  simp only [pObjLoop]
  rw [skipWs_cons_false _ _ (by decide)]
  simp only [hstr]
  rw [skipWs_cons_false _ _ (by decide)]
  simp only [pVal_ws, hv]
  rw [skipWs_cons_false _ _ (by decide)]
  simp only [pObjLoop_ws]
  simp only [hloop]

/-- Completeness: with enough fuel, the parsers read back exactly what the
printers emitted, leaving the rest of the input untouched. -/
theorem parsers_complete (fuel : Nat) :
    (∀ (v : JVal) (rest : List Char), jvalWfB v = true → needV v ≤ fuel →
      numSafe rest → pVal fuel (printJVal v ++ rest) = some (v, rest)) ∧
    (∀ (l : JArr) (rest : List Char), jarrWfB l = true → l ≠ .nil →
      needLoop l ≤ fuel →
      pArrLoop fuel (printArrBody l ++ ']' :: rest) = some (l, rest)) ∧
    (∀ (ob : JObj) (rest : List Char), jobjWfB ob = true → ob ≠ .nil →
      needOLoop ob ≤ fuel →
      pObjLoop fuel (printObjBody ob ++ '\x7d' :: rest) = some (ob, rest)) := by
  induction fuel using Nat.strong_induction_on with
  | _ fuel ih =>
    cases fuel with
    | zero =>
      refine ⟨?_, ?_, ?_⟩
      · intro v rest _ hneed _
        exact absurd hneed (by have := needV_pos v; omega)
      · intro l rest _ hne hneed
        cases l with
        | nil => exact absurd rfl hne
        | cons v tl =>
          rw [needLoop] at hneed
          omega
      · intro ob rest _ hne hneed
        cases ob with
        | nil => exact absurd rfl hne
        | cons k v tl =>
          rw [needOLoop] at hneed
          omega
    | succ f =>
      refine ⟨?_, ?_, ?_⟩
      · -- pVal
        intro v rest hwf hneed hsafe
        cases v with
        | jnull => exact rfl
        | jbool b => cases b <;> exact rfl
        | jint n => exact pVal_print_int f n rest hsafe
        | jstr s => exact pVal_print_str f s rest hwf
        | jarr l =>
          cases l with
          | nil =>
            have hf : 1 ≤ f := by rw [needV] at hneed; omega
            obtain ⟨f2, rfl⟩ : ∃ f2, f = f2 + 1 := ⟨f - 1, by omega⟩
            exact rfl
          | cons v0 tl =>
            have hf : needLoop (.cons v0 tl) + 2 ≤ f + 1 := by
              rw [needV] at hneed; omega
            obtain ⟨f2, rfl⟩ : ∃ f2, f = f2 + 1 := ⟨f - 1, by omega⟩
            have hloop := (ih f2 (by omega)).2.1 (.cons v0 tl) rest hwf
              (by intro h; cases h) (by omega)
            exact pVal_print_arr f2 (.cons v0 tl) (by intro h; cases h) rest
              hloop
        | jobj ob =>
          cases ob with
          | nil =>
            have hf : 1 ≤ f := by rw [needV] at hneed; omega
            obtain ⟨f2, rfl⟩ : ∃ f2, f = f2 + 1 := ⟨f - 1, by omega⟩
            exact rfl
          | cons k v0 tl =>
            have hf : needOLoop (.cons k v0 tl) + 2 ≤ f + 1 := by
              rw [needV] at hneed; omega
            obtain ⟨f2, rfl⟩ : ∃ f2, f = f2 + 1 := ⟨f - 1, by omega⟩
            have hloop := (ih f2 (by omega)).2.2 (.cons k v0 tl) rest hwf
              (by intro h; cases h) (by omega)
            exact pVal_print_obj f2 k v0 tl rest hloop
      · -- pArrLoop
        intro l rest hwf hne hneed
        cases l with
        | nil => exact absurd rfl hne
        | cons v tl =>
          rw [needLoop] at hneed
          obtain ⟨hwv, hwtl⟩ := Bool.and_eq_true_iff.mp hwf
          cases tl with
          | nil =>
            have hv := (ih f (by omega)).1 v (']' :: rest) hwv
              (by simp [needLoop] at hneed; omega) (by exact rfl)
            exact pArrLoop_single f v rest hv
          | cons w tl2 =>
            have hv := (ih f (by omega)).1 v
              (',' :: ' ' :: (printArrBody (.cons w tl2) ++ ']' :: rest)) hwv
              (by omega) (by exact rfl)
            have hloop := (ih f (by omega)).2.1 (.cons w tl2) rest hwtl
              (by intro h; cases h) (by omega)
            exact pArrLoop_cons f v w tl2 rest hv hloop
      · -- pObjLoop
        intro ob rest hwf hne hneed
        cases ob with
        | nil => exact absurd rfl hne
        | cons k v tl =>
          rw [needOLoop] at hneed
          obtain ⟨hwkv, hwtl⟩ := Bool.and_eq_true_iff.mp hwf
          obtain ⟨hwk, hwv⟩ := Bool.and_eq_true_iff.mp hwkv
          cases tl with
          | nil =>
            have hv := (ih f (by omega)).1 v ('\x7d' :: rest) hwv
              (by omega) (by exact rfl)
            exact pObjLoop_single f k v rest hwk hv
          | cons k2 w tl2 =>
            have hv := (ih f (by omega)).1 v
              (',' :: ' ' ::
                (printObjBody (.cons k2 w tl2) ++ '\x7d' :: rest)) hwv
              (by omega) (by exact rfl)
            have hloop := (ih f (by omega)).2.2 (.cons k2 w tl2) rest hwtl
              (by intro h; cases h) (by omega)
            exact pObjLoop_cons f k v k2 w tl2 rest hwk hv hloop

/-! ### Line framing: strip, split, and the round trip -/

/-- parseLine reads back a printed well-formed value. -/
theorem parseLine_print (v : JVal) (hwf : jvalWfB v = true) :
    parseLine (printJVal v) = some v := by
  have hfuel : needV v ≤ 2 * (printJVal v).length + 1 :=
    le_trans (needV_le v) (by omega)
  have h := (parsers_complete (2 * (printJVal v).length + 1)).1 v [] hwf hfuel
    trivial
  rw [List.append_nil] at h
  unfold parseLine
  rw [h]
  rfl

/-- Character escaping never emits a newline. -/
theorem nl_not_mem_escChar (c : Char) : '\n' ∉ escChar c := by
  by_cases h1 : c = '\"'
  · simp [escChar, h1]
  by_cases h2 : c = '\\'
  · simp [escChar, h1, h2]
  by_cases h3 : c = '\n'
  · simp [escChar, h1, h2, h3]
  by_cases h4 : c = '\t'
  · simp [escChar, h1, h2, h3, h4]
  by_cases h5 : c = '\r'
  · simp [escChar, h1, h2, h3, h4, h5]
  · simp [escChar, h1, h2, h3, h4, h5]
    exact fun h => h3 h.symm

/-- Decimal digit runs contain no newline. -/
theorem nl_not_mem_natDigits (n : Nat) : '\n' ∉ natDigits n := by
  intro h
  exact absurd (natDigits_all_digits n '\n' h) (by decide)

/-- Printed integers contain no newline. -/
theorem nl_not_mem_printInt (n : Int) : '\n' ∉ printInt n := by
  unfold printInt
  by_cases h : n < 0
  · rw [if_pos h]
    intro hm
    rcases List.mem_cons.mp hm with h1 | h1
    · exact absurd h1 (by decide)
    · exact nl_not_mem_natDigits _ h1
  · rw [if_neg h]
    exact nl_not_mem_natDigits _

/-- Printed string literals contain no newline. -/
theorem nl_not_mem_printString (s : String) : '\n' ∉ printString s := by
  unfold printString
  intro hm
  rcases List.mem_cons.mp hm with h1 | h1
  · exact absurd h1 (by decide)
  rcases List.mem_append.mp h1 with h2 | h2
  · rcases List.mem_flatten.mp h2 with ⟨l, hl, hml⟩
    rcases List.mem_map.mp hl with ⟨c, -, rfl⟩
    exact nl_not_mem_escChar c hml
  · exact absurd h2 (by decide)

mutual
/-- Printed values contain no newline. -/
theorem nl_not_mem_printJVal (v : JVal) : '\n' ∉ printJVal v := by
  cases v with
  | jnull => decide
  | jbool b => cases b <;> decide
  | jint n => exact nl_not_mem_printInt n
  | jstr s => exact nl_not_mem_printString s
  | jarr l =>
    show '\n' ∉ '[' :: printArrBody l ++ [']']
    intro hm
    rcases List.mem_cons.mp hm with h1 | h1
    · exact absurd h1 (by decide)
    rcases List.mem_append.mp h1 with h2 | h2
    · exact nl_not_mem_printArrBody l h2
    · exact absurd h2 (by decide)
  | jobj ob =>
    show '\n' ∉ '\x7b' :: printObjBody ob ++ ['\x7d']
    intro hm
    rcases List.mem_cons.mp hm with h1 | h1
    · exact absurd h1 (by decide)
    rcases List.mem_append.mp h1 with h2 | h2
    · exact nl_not_mem_printObjBody ob h2
    · exact absurd h2 (by decide)

/-- Printed array items contain no newline. -/
theorem nl_not_mem_printArrBody (l : JArr) : '\n' ∉ printArrBody l := by
  cases l with
  | nil => decide
  | cons v tl =>
    cases tl with
    | nil => exact nl_not_mem_printJVal v
    | cons w tl2 =>
      show '\n' ∉ printJVal v ++ [',', ' '] ++ printArrBody (.cons w tl2)
      intro hm
      rcases List.mem_append.mp hm with h1 | h1
      · rcases List.mem_append.mp h1 with h2 | h2
        · exact nl_not_mem_printJVal v h2
        · exact absurd h2 (by decide)
      · exact nl_not_mem_printArrBody (.cons w tl2) h1

/-- Printed object entries contain no newline. -/
theorem nl_not_mem_printObjBody (ob : JObj) : '\n' ∉ printObjBody ob := by
  cases ob with
  | nil => decide
  | cons k v tl =>
    cases tl with
    | nil =>
      show '\n' ∉ printString k ++ [':', ' '] ++ printJVal v
      intro hm
      rcases List.mem_append.mp hm with h1 | h1
      · rcases List.mem_append.mp h1 with h2 | h2
        · exact nl_not_mem_printString k h2
        · exact absurd h2 (by decide)
      · exact nl_not_mem_printJVal v h1
    | cons k2 w tl2 =>
      show '\n' ∉ printString k ++ [':', ' '] ++ printJVal v ++ [',', ' '] ++
        printObjBody (.cons k2 w tl2)
      intro hm
      rcases List.mem_append.mp hm with h1 | h1
      · rcases List.mem_append.mp h1 with h2 | h2
        · rcases List.mem_append.mp h2 with h3 | h3
          · rcases List.mem_append.mp h3 with h4 | h4
            · exact nl_not_mem_printString k h4
            · exact absurd h4 (by decide)
          · exact nl_not_mem_printJVal v h3
        · exact absurd h2 (by decide)
      · exact nl_not_mem_printObjBody (.cons k2 w tl2) h1
end

/-- Lines joined by single newlines (Python's `'\n'.join`). -/
def joinNl : List (List Char) → List Char
  | [] => []
  | [l] => l
  | l :: l2 :: ls => l ++ '\n' :: joinNl (l2 :: ls)

/-- Concatenating newline-terminated lines yields the newline-joined lines
plus a final newline. -/
theorem flatten_nl (lines : List (List Char)) (hne : lines ≠ []) :
    (lines.map (fun l => l ++ ['\n'])).flatten = joinNl lines ++ ['\n'] := by
  induction lines with
  | nil => exact absurd rfl hne
  | cons l ls ih =>
    cases ls with
    | nil => simp [joinNl]
    | cons l2 ls2 =>
      simp only [List.map_cons, List.flatten_cons] at ih ⊢
      rw [ih (by simp)]
      simp [joinNl]

/-- Splitting a newline-free line yields that single line. -/
theorem splitNl_no_nl (l : List Char) (h : '\n' ∉ l) : splitNl l = [l] := by
  induction l with
  | nil => rfl
  | cons c cs ih =>
    have hc : ¬(c = '\n') := fun hh => h (hh ▸ List.mem_cons_self _ _)
    have hcs : '\n' ∉ cs := fun hh => h (List.mem_cons_of_mem _ hh)
    simp only [splitNl]
    rw [if_neg hc, ih hcs]

/-- Splitting past a newline separator peels off the first line. -/
theorem splitNl_sep (l rest : List Char) (h : '\n' ∉ l) :
    splitNl (l ++ '\n' :: rest) = l :: splitNl rest := by
  induction l with
  | nil => simp [splitNl]
  | cons c cs ih =>
    have hc : ¬(c = '\n') := fun hh => h (hh ▸ List.mem_cons_self _ _)
    have hcs : '\n' ∉ cs := fun hh => h (List.mem_cons_of_mem _ hh)
    simp only [List.cons_append, splitNl, List.append_eq]
    rw [if_neg hc, ih hcs]

/-- Splitting inverts joining for newline-free lines. -/
theorem splitNl_joinNl (lines : List (List Char))
    (h : ∀ l ∈ lines, '\n' ∉ l) (hne : lines ≠ []) :
    splitNl (joinNl lines) = lines := by
  induction lines with
  | nil => exact absurd rfl hne
  | cons l ls ih =>
    cases ls with
    | nil => exact splitNl_no_nl l (h l (List.mem_cons_self _ _))
    | cons l2 ls2 =>
      show splitNl (l ++ '\n' :: joinNl (l2 :: ls2)) = l :: l2 :: ls2
      rw [splitNl_sep _ _ (h l (List.mem_cons_self _ _))]
      rw [ih (fun x hx => h x (List.mem_cons_of_mem _ hx)) (by simp)]

/-- `pstrip` leaves a list alone when both ends are non-whitespace. -/
theorem pstrip_id (a : Char) (mid : List Char) (b : Char)
    (ha : isWsChar a = false) (hb : isWsChar b = false) :
    pstrip (a :: (mid ++ [b])) = a :: (mid ++ [b]) := by
  unfold pstrip
  rw [List.dropWhile_cons, if_neg (by simp [ha])]
  rw [List.reverse_cons, List.reverse_append]
  simp only [List.reverse_cons, List.reverse_nil, List.nil_append,
    List.cons_append]
  rw [List.dropWhile_cons, if_neg (by simp [hb])]
  simp

/-- `pstrip` removes exactly the trailing newline when the content has
non-whitespace ends. -/
theorem pstrip_wrap (a : Char) (mid : List Char) (b : Char)
    (ha : isWsChar a = false) (hb : isWsChar b = false) :
    pstrip ((a :: (mid ++ [b])) ++ ['\n']) = a :: (mid ++ [b]) := by
  unfold pstrip
  rw [List.cons_append, List.dropWhile_cons, if_neg (by simp [ha])]
  rw [List.reverse_cons, List.reverse_append]
  simp only [List.reverse_append, List.reverse_cons, List.reverse_nil,
    List.nil_append, List.cons_append]
  rw [List.dropWhile_cons, if_pos (by decide)]
  rw [List.dropWhile_cons, if_neg (by simp [hb])]
  simp

/-- Newline-joined lines whose every line is brace-wrapped are themselves
brace-wrapped. -/
theorem joinNl_shape (lines : List (List Char))
    (h : ∀ l ∈ lines, ∃ m, l = '\x7b' :: (m ++ ['\x7d'])) (hne : lines ≠ []) :
    ∃ mid, joinNl lines = '\x7b' :: (mid ++ ['\x7d']) := by
  induction lines with
  | nil => exact absurd rfl hne
  | cons l ls ih =>
    cases ls with
    | nil =>
      obtain ⟨m, hm⟩ := h l (List.mem_cons_self _ _)
      exact ⟨m, hm⟩
    | cons l2 ls2 =>
      obtain ⟨m, hm⟩ := h l (List.mem_cons_self _ _)
      obtain ⟨mid2, hmid2⟩ :=
        ih (fun x hx => h x (List.mem_cons_of_mem _ hx)) (by simp)
      refine ⟨m ++ ['\x7d'] ++ '\n' :: '\x7b' :: mid2, ?_⟩
      show l ++ '\n' :: joinNl (l2 :: ls2) = _
      rw [hm, hmid2]
      simp

/-- Concatenation of a list of strings (socket buffers accumulate
`create_message` outputs back to back). -/
def joinStrings : List String → String
  | [] => ""
  | s :: ss => s ++ joinStrings ss

/-- The characters of a concatenation are the concatenated characters. -/
theorem joinStrings_data (l : List String) :
    (joinStrings l).data = (l.map String.data).flatten := by
  induction l with
  | nil => rfl
  | cons s ss ih =>
    show (s ++ joinStrings ss).data = _
    rw [String.data_append, ih]
    rfl

/-- A `filterMap` in which every element maps to `some` is a `map`. -/
theorem filterMap_all_some {α β : Type} (f : α → Option β) (g : α → β)
    (l : List α) (h : ∀ a ∈ l, f a = some (g a)) :
    l.filterMap f = l.map g := by
  induction l with
  | nil => rfl
  | cons a as ih =>
    simp only [List.filterMap_cons, h a (List.mem_cons_self _ _),
      List.map_cons, ih (fun x hx => h x (List.mem_cons_of_mem _ hx))]

/-- The envelope of well-formed components is well-formed. -/
theorem envelope_wf (t : String) (d : JObj) (ts : String)
    (ht : okStringB t = true) (hd : jobjWfB d = true)
    (hts : okStringB ts = true) :
    jvalWfB (envelope t d ts) = true := by
  have h1 : okStringB "type" = true := by decide
  have h2 : okStringB "data" = true := by decide
  have h3 : okStringB "timestamp" = true := by decide
  show jobjWfB (.cons "type" (.jstr t) (.cons "data" (.jobj (d))
    (.cons "timestamp" (.jstr ts) .nil))) = true
  simp [jobjWfB, jvalWfB, h1, h2, h3, ht, hd, hts]

/-- Parsing a concatenation of encoded messages recovers the envelopes in
order. -/
theorem parse_messages_create (msgs : List (String × Option JObj × String))
    (hwf : ∀ m ∈ msgs, okStringB m.1 = true ∧ jobjWfB (dataOf m.2.1) = true ∧
      okStringB m.2.2 = true) :
    parse_messages
        (joinStrings (msgs.map (fun m => create_message m.1 m.2.1 m.2.2)))
      = msgs.map (fun m => envelope m.1 (dataOf m.2.1) m.2.2) := by
  cases msgs with
  | nil => rfl
  | cons m0 rest =>
    have hdata : (joinStrings ((m0 :: rest).map
        (fun m => create_message m.1 m.2.1 m.2.2))).data
        = (((m0 :: rest).map (fun m =>
            printJVal (envelope m.1 (dataOf m.2.1) m.2.2))).map
              (fun l => l ++ ['\n'])).flatten := by
      rw [joinStrings_data, List.map_map, List.map_map]
      rfl
    have hlshape : ∀ l ∈ (m0 :: rest).map (fun m =>
        printJVal (envelope m.1 (dataOf m.2.1) m.2.2)),
        ∃ m, l = '\x7b' :: (m ++ ['\x7d']) := by
      intro l hl
      rcases List.mem_map.mp hl with ⟨m, -, rfl⟩
      exact ⟨printObjBody (.cons "type" (.jstr m.1)
        (.cons "data" (.jobj (dataOf m.2.1))
          (.cons "timestamp" (.jstr m.2.2) .nil))), rfl⟩
    have hnl : ∀ l ∈ (m0 :: rest).map (fun m =>
        printJVal (envelope m.1 (dataOf m.2.1) m.2.2)), '\n' ∉ l := by
      intro l hl
      rcases List.mem_map.mp hl with ⟨m, -, rfl⟩
      exact nl_not_mem_printJVal _
    obtain ⟨mid, hmid⟩ := joinNl_shape _ hlshape (by simp)
    unfold parse_messages
    rw [hdata, flatten_nl _ (by simp), hmid]
    rw [pstrip_wrap _ _ _ (by decide) (by decide)]
    rw [← hmid, splitNl_joinNl _ hnl (by simp)]
    rw [List.filterMap_map]
    apply filterMap_all_some
    intro m hm
    obtain ⟨ht, hd, hts⟩ := hwf m hm
    show (if (pstrip (printJVal (envelope m.1 (dataOf m.2.1) m.2.2))).isEmpty
        then none
        else parseLine (printJVal (envelope m.1 (dataOf m.2.1) m.2.2)))
      = some (envelope m.1 (dataOf m.2.1) m.2.2)
    have hps : pstrip (printJVal (envelope m.1 (dataOf m.2.1) m.2.2))
        = '\x7b' :: (printObjBody (.cons "type" (.jstr m.1)
            (.cons "data" (.jobj (dataOf m.2.1))
              (.cons "timestamp" (.jstr m.2.2) .nil))) ++ ['\x7d']) :=
      pstrip_id _ _ _ (by decide) (by decide)
    rw [hps, if_neg (by simp)]
    exact parseLine_print _ (envelope_wf m.1 (dataOf m.2.1) m.2.2 ht hd hts)

/-- C10: round-trip of the wire protocol.  For any list of messages (type
string, optional data dict, timestamp string) over the modelled JSON
fragment, parsing the concatenation of their `create_message` encodings
yields exactly the corresponding envelopes in order; in particular a single
encoded message parses back to exactly one message whose `type` field is `t`
and whose `data` field is `d` (the empty dict when `d` is omitted or
empty, per `dataOf`). -/
theorem claim10_protocol_roundtrip
    (msgs : List (String × Option JObj × String))
    (hwf : ∀ m ∈ msgs, okStringB m.1 = true ∧ jobjWfB (dataOf m.2.1) = true ∧
      okStringB m.2.2 = true) :
    parse_messages
        (joinStrings (msgs.map (fun m => create_message m.1 m.2.1 m.2.2)))
      = msgs.map (fun m => envelope m.1 (dataOf m.2.1) m.2.2) ∧
    ∀ t d ts, okStringB t = true → jobjWfB (dataOf d) = true →
      okStringB ts = true →
      parse_messages (create_message t d ts) = [envelope t (dataOf d) ts] := by
  refine ⟨parse_messages_create msgs hwf, ?_⟩
  intro t d ts ht hd hts
  have h := parse_messages_create [(t, d, ts)] (by
    intro m hm
    rcases List.mem_singleton.mp hm with rfl
    exact ⟨ht, hd, hts⟩)
  have hx : joinStrings [create_message t d ts] = create_message t d ts := by
    show create_message t d ts ++ "" = create_message t d ts
    exact String.append_empty _
  simp only [List.map_cons, List.map_nil] at h
  rw [hx] at h
  exact h

/-- Two concrete messages for the round-trip check. -/
def protoMsgs : List (String × Option JObj × String) :=
  [("place_stone",
    some (.cons "x" (.jint 7) (.cons "y" (.jint (-1)) .nil)),
    "2025-01-01T12:00:00"),
   ("game_start", none, "2025-01-01T12:00:01")]

theorem claim10_protocol_roundtrip_witness :
    (∀ m ∈ protoMsgs, okStringB m.1 = true ∧ jobjWfB (dataOf m.2.1) = true ∧
      okStringB m.2.2 = true) ∧
    parse_messages (joinStrings (protoMsgs.map
        (fun m => create_message m.1 m.2.1 m.2.2)))
      = protoMsgs.map (fun m => envelope m.1 (dataOf m.2.1) m.2.2) :=
  ⟨by decide, (claim10_protocol_roundtrip protoMsgs (by decide)).1⟩

end Gomoku
